import Mathlib

/-!
# netchecker: WAN link scoring, badness predicate, monitoring loop and interface evaluation

A shallow embedding of `cmd/netchecker/main.go`, `api.go`, `dns.go` and `speed.go`.

* Go `int` values are embedded as `Int`; the arithmetic of the scorer is not wrapped, and a
  conversion `int(x)` is the truncation of `x`. Go leaves the result to the implementation
  when `x` is outside the 64-bit range. Packet losses that are percentages (0 to 100) and
  non-negative throughputs never get there (`lossPenalty_percent`, `speedScore_bounds`), and
  the bounds on a score are stated for such reports.
* Go `float64` values are embedded as the rationals they denote; every float64 operation is the
  exact operation followed by `f64Round`, rounding to a 53-bit significand, ties to even.
* A Go map that is ranged over is embedded by the sequence in which the loop visits it.
* The router, the pinger, the DNS client, the HTTP client and the speed-test client are
  outside the program. The router table is explicit state: a `PUT` that succeeds stores the
  route under a fresh id, a `DELETE` that succeeds drops the route of that id, and a request
  that fails changes nothing. Everything else the outside world answers is read from an
  `Env`, indexed by the number of outside calls made so far.
* A function with deferred calls is embedded as its statements, which return the stack of
  deferred calls registered so far, followed by the run of that stack.
-/

namespace Netchecker

/-! ## float64 -/

/-- Rounding of a rational to the nearest integer, a tie going to the even neighbour. -/
def roundHalfEven (q : ℚ) : ℤ :=
  let f := ⌊q⌋
  let r := q - f
  if r < 1 / 2 then f else if 1 / 2 < r then f + 1 else if f % 2 = 0 then f else f + 1

/-- The float64 nearest to a rational: the significand is scaled into 53 bits, rounded to the
nearest integer with ties to even, and scaled back. All values that occur (conversions of
64-bit integers, quotients and products of them) lie in the normal exponent range. -/
def f64Round (q : ℚ) : ℚ :=
  if q = 0 then 0 else
    let e := Int.log 2 |q| - 52
    (roundHalfEven (q / 2 ^ e) : ℚ) * 2 ^ e

/-- Go conversion `float64(n)` of an int. -/
def f64OfInt (n : Int) : ℚ := f64Round n

/-- Go float64 division. -/
def f64Div (a b : ℚ) : ℚ := f64Round (a / b)

/-- Go float64 multiplication. -/
def f64Mul (a b : ℚ) : ℚ := f64Round (a * b)

/-- Go conversion `int(x)` of a float64: the fraction is discarded (truncation towards zero).
This is what Go computes for a truncation within the 64-bit range; outside it Go leaves the
result to the implementation, and the facts below are stated where the range is kept. -/
def f64ToInt (x : ℚ) : Int := if 0 ≤ x then ⌊x⌋ else ⌈x⌉

/-! ## main.go: ifStatus, isBad, scoreInterfaces -/

/-- The struct `ifStatus`. -/
structure IfStatus where
  ifName : String
  invalidConfig : Bool
  gatewayPacketLoss : Int
  externalPacketLoss : Int
  dnsOkay : Bool
  msftConnTest : Bool
  throughput : Int
  routeDistance : Int
  dhcpClientId : String
  gateway : String
deriving DecidableEq, Repr

/-- The method `(*ifStatus).isBad`. -/
def IfStatus.isBad (ifs : IfStatus) : Bool :=
  if ifs.invalidConfig || !ifs.dnsOkay || !ifs.msftConnTest then true
  else if decide (ifs.gatewayPacketLoss > 0) || decide (ifs.externalPacketLoss > 0) then true
  else false

/-- The Go map `map[string]int` of scores: an association list with one entry per key. -/
abbrev Scores := List (String × Int)

/-- Reading `scores[k]`: the zero value when the key is absent. -/
def Scores.get (m : Scores) (k : String) : Int := (m.lookup k).getD 0

/-- Assignment `scores[k] = v`. -/
def Scores.set : Scores → String → Int → Scores
  | [], k, v => [(k, v)]
  | (k', v') :: rest, k, v =>
    if k' = k then (k', v) :: rest else (k', v') :: Scores.set rest k v

/-- The expression `int(float64(max(gatewayPacketLoss, externalPacketLoss)/100) * 1024)`;
the division is the truncating division of Go ints. For losses that are percentages the value
is 0 or 1024 (`lossPenalty_percent`); the product leaves the 64-bit range only for a loss of
100 * 2 ^ 53 or more. -/
def lossPenalty (i : IfStatus) : Int :=
  f64ToInt (f64Mul (f64OfInt (Int.tdiv (max i.gatewayPacketLoss i.externalPacketLoss) 100)) 1024)

/-- The expression `int(float64(i.throughput) / float64(maxThroughput) * 64)`. -/
def speedScore (throughput maxThroughput : Int) : Int :=
  f64ToInt (f64Mul (f64Div (f64OfInt throughput) (f64OfInt maxThroughput)) 64)

/-- Body of the first loop of `scoreInterfaces`: base score and running maximum throughput. -/
def scoreInit (acc : Scores × Int) (i : IfStatus) : Scores × Int :=
  (acc.1.set i.ifName 16, max acc.2 i.throughput)

/-- The packet-loss statement of the second loop (`if i.gatewayPacketLoss > 0 || ...`). -/
def lossStep (scores : Scores) (i : IfStatus) : Scores :=
  if i.gatewayPacketLoss > 0 ∨ i.externalPacketLoss > 0 then
    scores.set i.ifName (scores.get i.ifName + lossPenalty i)
  else scores

/-- The DNS statement of the second loop. -/
def dnsStep (scores : Scores) (i : IfStatus) : Scores :=
  if !i.dnsOkay then scores.set i.ifName (scores.get i.ifName + 128) else scores

/-- The connectivity-test statement of the second loop. -/
def connStep (scores : Scores) (i : IfStatus) : Scores :=
  if !i.msftConnTest then scores.set i.ifName (scores.get i.ifName + 64) else scores

/-- The throughput statement of the second loop. -/
def speedStep (maxThroughput : Int) (scores : Scores) (i : IfStatus) : Scores :=
  if maxThroughput > 0 then
    scores.set i.ifName
      (scores.get i.ifName + max 0 (64 - speedScore i.throughput maxThroughput))
  else scores

/-- Body of the second loop of `scoreInterfaces`. -/
def scoreBody (maxThroughput : Int) (scores : Scores) (i : IfStatus) : Scores :=
  if i.invalidConfig then scores.set i.ifName 256
  else
    let scores := lossStep scores i
    let scores := dnsStep scores i
    let scores := connStep scores i
    let scores := speedStep maxThroughput scores i
    scores.set i.ifName (min 255 (scores.get i.ifName))

/-- The function `scoreInterfaces`. The argument map `ifs` is given by the two sequences in
which the first and the second `range` loop visit its values. -/
def scoreInterfaces (first second : List IfStatus) : Scores :=
  let init := first.foldl scoreInit ([], 0)
  second.foldl (scoreBody init.2) init.1

/-- The value one pass of `scoreBody` leaves at the key of `i` when it found `base` there. -/
def entryAfter (maxThroughput base : Int) (i : IfStatus) : Int :=
  if i.invalidConfig then 256
  else
    let s1 := if i.gatewayPacketLoss > 0 ∨ i.externalPacketLoss > 0 then base + lossPenalty i
      else base
    let s2 := if !i.dnsOkay then s1 + 128 else s1
    let s3 := if !i.msftConnTest then s2 + 64 else s2
    let s4 := if maxThroughput > 0 then s3 + max 0 (64 - speedScore i.throughput maxThroughput)
      else s3
    min 255 s4

/-- The running maximum computed by the first loop of `scoreInterfaces`. -/
def maxThroughputOf (l : List IfStatus) : Int :=
  l.foldl (fun m i => max m i.throughput) 0

/-! ## api.go: the router -/

/-- One JSON object of string fields, as decoded into a Go `map[string]string`. -/
abbrev Obj := List (String × String)

/-- Reading `m[k]` from a `map[string]string`: the empty string when the key is absent. -/
def Obj.field (o : Obj) (k : String) : String := (o.lookup k).getD ""

/-- One entry of the router table `ip/route`, with the fields the program reads or writes. -/
structure Route where
  id : Nat
  dstAddress : String
  gateway : String
  distance : String
  comment : String
deriving DecidableEq, Repr

/-- Calls that leave the program, in the order they are made. -/
inductive Event where
  | apiGet (endpoint : String)
  | apiPut (dst gw : String)
  | apiDelete (id : Nat)
  | newPinger (addr : String)
  | pingRun (addr : String)
  | sleep (ms : Nat)
  | dnsExchange (host server : String)
  | httpGet (url : String)
  | fetchServers
  | findServer
  | pingTest (host : String)
  | downloadTest (host : String)
deriving DecidableEq, Repr

/-- The router configuration the program talks to, and the calls made so far. -/
structure State where
  dhcpClients : List Obj
  routes : List Route
  nextId : Nat
  trace : List Event
deriving DecidableEq, Repr

/-- What the outside world answers. Every answer is indexed by the number of calls made before
it, so that the same question can be answered differently at different times. -/
structure Env where
  /-- The router request fails (transport error, undecodable reply or status 400 and above). -/
  apiFails : Nat → Bool
  /-- The call `probing.NewPinger` fails. -/
  newPingerFails : Nat → String → Bool
  /-- The call `Run` of a pinger: `none` for an error, else `int(stats.PacketLoss)`. -/
  pingLoss : Nat → String → Option Int
  /-- A DNS exchange for the A records of a host at a server: `none` for an error, else the
  answer section, an A record carrying its address and any other record being `none`. -/
  dnsAnswer : Nat → String → String → Option (List (Option String))
  /-- An HTTP GET: `none` for an error, else the status and the body (`none`: unreadable). -/
  httpGet : Nat → String → Option (Nat × Option String)
  /-- The call `FetchServers` fails. -/
  fetchServersFails : Nat → Bool
  /-- The call `FindServer`: `none` for an error, else the `Host` of every target. -/
  findServer : Nat → Option (List String)
  /-- The call `PingTest` on a target fails. -/
  pingTestFails : Nat → String → Bool
  /-- The call `DownloadTest` on a target: `none` for an error, else `int(t.DLSpeed)`. -/
  downloadSpeed : Nat → String → Option Int

/-- The marker comment of transient routes. -/
def marker : String := "netchecker"

/-- Appends a call to the trace. -/
def record (ev : Event) (s : State) : State := { s with trace := s.trace ++ [ev] }

/-- The request `GET ip/route` as used by `clearStaticRoute`. -/
def getRoutes (env : Env) (s : State) : Except String (List Route) × State :=
  if env.apiFails s.trace.length then (.error "request failed", record (.apiGet "ip/route") s)
  else (.ok s.routes, record (.apiGet "ip/route") s)

/-- The request `DELETE ip/route/<id>`: the router drops the entry of that id. -/
def deleteRoute (env : Env) (id : Nat) (s : State) : Except String Unit × State :=
  if env.apiFails s.trace.length then (.error "request failed", record (.apiDelete id) s)
  else (.ok (), { record (.apiDelete id) s with routes := s.routes.filter (fun r => r.id ≠ id) })

/-- The method `setStaticRoute`: `PUT ip/route` of a route with distance 1 and the marker
comment; the router stores it under a fresh id. -/
def setStaticRoute (env : Env) (ip gw : String) (s : State) : Except String Unit × State :=
  if env.apiFails s.trace.length then (.error "request failed", record (.apiPut ip gw) s)
  else (.ok (), { record (.apiPut ip gw) s with
    routes := s.routes ++ [⟨s.nextId, ip, gw, "1", marker⟩], nextId := s.nextId + 1 })

/-- The loop of `clearStaticRoute` over the fetched routes. -/
def deleteMatching (env : Env) (ip : String) : List Route → State → Except String Unit × State
  | [], s => (.ok (), s)
  | r :: rs, s =>
    if r.dstAddress = ip then
      match deleteRoute env r.id s with
      | (.error e, s1) => (.error e, s1)
      | (.ok _, s1) => deleteMatching env ip rs s1
    else deleteMatching env ip rs s

/-- The method `clearStaticRoute`. -/
def clearStaticRoute (env : Env) (ip : String) (s : State) : Except String Unit × State :=
  match getRoutes env s with
  | (.error e, s1) => (.error e, s1)
  | (.ok routes, s1) => deleteMatching env ip routes s1

/-- The comparison `strings.EqualFold`, on ASCII letters. -/
def equalFold (a b : String) : Bool := a.data.map Char.toLower == b.data.map Char.toLower

/-- The method `dhcpInfo`: the first DHCP client of the interface; the nil map (read like the
empty one) when there is none. -/
def dhcpInfo (env : Env) (iface : String) (s : State) : Except String Obj × State :=
  if env.apiFails s.trace.length then
    (.error "request failed", record (.apiGet "ip/dhcp-client") s)
  else
    (.ok ((s.dhcpClients.find? (fun c => equalFold (c.field "interface") iface)).getD []),
      record (.apiGet "ip/dhcp-client") s)

/-- The function `strconv.Atoi` with its error dropped: 0 on a syntax error, the nearest
64-bit value on a range error. -/
def atoi (str : String) : Int :=
  let body : Bool × List Char :=
    match str.data with
    | '-' :: r => (true, r)
    | '+' :: r => (false, r)
    | r => (false, r)
  if body.2.isEmpty || !(body.2.all Char.isDigit) then 0
  else
    let n : Int := (body.2.foldl (fun a c => 10 * a + (c.toNat - 48)) 0 : Nat)
    if body.1 then max (-n) (-(2 ^ 63)) else min n (2 ^ 63 - 1)

/-! ## dns.go -/

/-- The function `checkDNS`. -/
def checkDNS (env : Env) (dnsServer : String) (s : State) : Bool × State :=
  let s1 := record (.dnsExchange "www.msftconnecttest.com" dnsServer) s
  match env.dnsAnswer s.trace.length "www.msftconnecttest.com" dnsServer with
  | none => (false, s1)
  | some answers => (decide (answers.length > 0), s1)

/-- The function `getARecords`. -/
def getARecords (env : Env) (hostname dnsServer : String) (s : State) :
    Except String (List String) × State :=
  let s1 := record (.dnsExchange hostname dnsServer) s
  match env.dnsAnswer s.trace.length hostname dnsServer with
  | none => (.error "exchange failed", s1)
  | some answers => (.ok (answers.filterMap id), s1)

/-- The loop of `staticRouteDNS`. -/
def staticRouteAll (env : Env) (gw : String) : List String → State → Except String Unit × State
  | [], s => (.ok (), s)
  | a :: rest, s =>
    match clearStaticRoute env (a ++ "/32") s with
    | (.error e, s1) => (.error e, s1)
    | (.ok _, s1) =>
      match setStaticRoute env (a ++ "/32") gw s1 with
      | (.error e, s2) => (.error e, s2)
      | (.ok _, s2) => staticRouteAll env gw rest s2

/-- The function `staticRouteDNS`. -/
def staticRouteDNS (env : Env) (hostname dnsServer gw : String) (s : State) :
    Except String Unit × State :=
  match getARecords env hostname dnsServer s with
  | (.error e, s1) => (.error e, s1)
  | (.ok addrs, s1) => staticRouteAll env gw addrs s1

/-- The loop of `clearStaticRouteDNS`. -/
def clearStaticRouteAll (env : Env) : List String → State → Except String Unit × State
  | [], s => (.ok (), s)
  | a :: rest, s =>
    match clearStaticRoute env (a ++ "/32") s with
    | (.error e, s1) => (.error e, s1)
    | (.ok _, s1) => clearStaticRouteAll env rest s1

/-- The function `clearStaticRouteDNS`. -/
def clearStaticRouteDNS (env : Env) (hostname dnsServer : String) (s : State) :
    Except String Unit × State :=
  match getARecords env hostname dnsServer s with
  | (.error e, s1) => (.error e, s1)
  | (.ok addrs, s1) => clearStaticRouteAll env addrs s1

/-- Which call of the install loop returned an error. -/
inductive InstallFailure where
  | clear
  | set
deriving DecidableEq, Repr

/-- The loop `clearStaticRoute; setStaticRoute; defer clearStaticRoute` over a list of
addresses, as written in `evaluateInterface` and in `msftConnCheck`. The result tells which
call failed, if any, and carries the stack of deferred destinations, the latest first. -/
def installRoutes (env : Env) (gw : String) :
    List String → List String → State → (Option InstallFailure × List String) × State
  | [], deferred, s => ((none, deferred), s)
  | a :: rest, deferred, s =>
    match clearStaticRoute env (a ++ "/32") s with
    | (.error _, s1) => ((some .clear, deferred), s1)
    | (.ok _, s1) =>
      match setStaticRoute env (a ++ "/32") gw s1 with
      | (.error _, s2) => ((some .set, deferred), s2)
      | (.ok _, s2) => installRoutes env gw rest ((a ++ "/32") :: deferred) s2

/-- Running the deferred `clearStaticRoute` calls at function exit, their errors dropped. -/
def runDeferred (env : Env) : List String → State → State
  | [], s => s
  | d :: rest, s => runDeferred env rest (clearStaticRoute env d s).2

/-- The part of `msftConnCheck` after the routes are installed: the HTTP request. -/
def connectTest (env : Env) (s : State) : Bool × State :=
  let url := "http://www.msftconnecttest.com/connecttest.txt"
  let s1 := record (.httpGet url) s
  match env.httpGet s.trace.length url with
  | none => (false, s1)
  | some (status, body) =>
    if status ≠ 200 then (false, s1)
    else
      match body with
      | none => (false, s1)
      | some bs => (bs == "Microsoft Connect Test", s1)

/-- The function `msftConnCheck`. -/
def msftConnCheck (env : Env) (dnsServer gw : String) (s : State) : Bool × State :=
  match getARecords env "www.msftconnecttest.com" dnsServer s with
  | (.error _, s1) => (false, s1)
  | (.ok addrs, s1) =>
    if addrs.length = 0 then (false, s1)
    else
      match installRoutes env gw addrs [] s1 with
      | ((some _, deferred), s2) => (false, runDeferred env deferred s2)
      | ((none, deferred), s2) =>
        let r := connectTest env s2
        (r.1, runDeferred env deferred r.2)

/-! ## speed.go -/

/-- The expression `strings.Split(t.Host, ":")[0]`. -/
def hostPart (host : String) : String := String.mk (host.data.takeWhile (fun c => c != ':'))

/-- Running the deferred `clearStaticRouteDNS` calls at the exit of `checkSpeed`, their errors
dropped: each call resolves its host name again. -/
def runDeferredDNS (env : Env) (dnsServer : String) : List String → State → State
  | [], s => s
  | h :: rest, s => runDeferredDNS env dnsServer rest (clearStaticRouteDNS env h dnsServer s).2

/-- The loop of `checkSpeed` over the targets; the deferred host names are carried along. -/
def speedTargets (env : Env) (dnsServer gw : String) :
    List String → List String → State → (Except String Int × List String) × State
  | [], deferred, s => ((.ok 0, deferred), s)
  | t :: rest, deferred, s =>
    match staticRouteDNS env (hostPart t) dnsServer gw s with
    | (.error e, s1) => ((.error e, hostPart t :: deferred), s1)
    | (.ok _, s1) =>
      let s2 := record (.sleep 100) s1
      let s3 := record (.pingTest t) s2
      if env.pingTestFails s2.trace.length t then
        speedTargets env dnsServer gw rest (hostPart t :: deferred) s3
      else
        match env.downloadSpeed s3.trace.length t with
        | none => ((.error "download failed", hostPart t :: deferred), record (.downloadTest t) s3)
        | some v => ((.ok v, hostPart t :: deferred), record (.downloadTest t) s3)

/-- The function `checkSpeed`. -/
def checkSpeed (env : Env) (dnsServer gw : String) (s : State) : Except String Int × State :=
  match staticRouteDNS env "www.speedtest.net" dnsServer gw s with
  | (.error e, s1) => (.error e, runDeferredDNS env dnsServer ["www.speedtest.net"] s1)
  | (.ok _, s1) =>
    let s2 := record (.sleep 100) s1
    let s3 := record .fetchServers s2
    if env.fetchServersFails s2.trace.length then
      (.error "fetch failed", runDeferredDNS env dnsServer ["www.speedtest.net"] s3)
    else
      match env.findServer s3.trace.length with
      | none =>
        (.error "find failed",
          runDeferredDNS env dnsServer ["www.speedtest.net"] (record .findServer s3))
      | some targets =>
        let r := speedTargets env dnsServer gw targets ["www.speedtest.net"]
          (record .findServer s3)
        (r.1.1, runDeferredDNS env dnsServer r.1.2 r.2)

/-! ## main.go: evaluateInterface -/

/-- The variable `externalCheckHosts`. -/
def externalCheckHosts : List String := ["1.0.0.1", "8.8.4.4"]

/-- Outcome of creating and running one pinger. -/
inductive PingResult where
  | newFailed
  | runFailed
  | loss (percent : Int)
deriving DecidableEq, Repr

/-- The calls `probing.NewPinger`, `Run` and `Statistics` on one address. -/
def ping (env : Env) (addr : String) (s : State) : PingResult × State :=
  if env.newPingerFails s.trace.length addr then (.newFailed, record (.newPinger addr) s)
  else
    match env.pingLoss (record (.newPinger addr) s).trace.length addr with
    | none => (.runFailed, record (.pingRun addr) (record (.newPinger addr) s))
    | some l => (.loss l, record (.pingRun addr) (record (.newPinger addr) s))

/-- The second loop of `evaluateInterface`: pinging the external hosts. -/
def pingExternal (env : Env) : List String → IfStatus → State → Except String IfStatus × State
  | [], ifs, s => (.ok ifs, s)
  | a :: rest, ifs, s =>
    match ping env a s with
    | (.newFailed, s1) => (.error "could not create external pinger", s1)
    | (.runFailed, s1) => (.error "could not ping external address", s1)
    | (.loss l, s1) =>
      pingExternal env rest { ifs with externalPacketLoss := max ifs.externalPacketLoss l } s1

/-- The third loop of `evaluateInterface`: the first external host that answers DNS is used
for the connectivity test, and the loop is left. The second component is `workingDNS`. -/
def dnsLoop (env : Env) : List String → IfStatus → State → (IfStatus × String) × State
  | [], ifs, s => ((ifs, ""), s)
  | d :: rest, ifs, s =>
    match checkDNS env d s with
    | (true, s1) =>
      let r := msftConnCheck env d ifs.gateway s1
      (({ ifs with dnsOkay := true, msftConnTest := r.1 }, d), r.2)
    | (false, s1) => dnsLoop env rest ifs s1

/-- The pair `(*ifStatus, error)` returned by `evaluateInterface`; `none` is nil. -/
abbrev EvalResult := Option IfStatus × Option String

/-- The statements of `evaluateInterface` up to its `return`, with the stack of deferred
`clearStaticRoute` destinations registered so far. -/
def evaluateInterfaceBody (env : Env) (ifname : String) (speedTest : Bool) (s : State) :
    (EvalResult × List String) × State :=
  let ifstats : IfStatus := ⟨ifname, true, 0, 0, false, false, 0, 0, "", ""⟩
  match dhcpInfo env ifname s with
  | (.error _, s1) => (((some ifstats, some "could not get dhcp client info"), []), s1)
  | (.ok dhcp, s1) =>
    let ifstats := { ifstats with
      dhcpClientId := dhcp.field ".id",
      routeDistance := atoi (dhcp.field "default-route-distance") }
    match dhcp.lookup "gateway" with
    | none => (((some ifstats, none), []), s1)
    | some gw =>
      let ifstats := { ifstats with gateway := gw, invalidConfig := false }
      match ping env gw s1 with
      | (.newFailed, s2) => (((none, some "could not create gateway pinger"), []), s2)
      | (.runFailed, s2) => (((none, some "could not ping gateway"), []), s2)
      | (.loss l, s2) =>
        let ifstats := { ifstats with gatewayPacketLoss := l }
        match installRoutes env gw externalCheckHosts [] s2 with
        | ((some .clear, deferred), s3) =>
          (((none, some "could not clear static route to dns server"), deferred), s3)
        | ((some .set, deferred), s3) =>
          (((none, some "could not set static route to dns server"), deferred), s3)
        | ((none, deferred), s3) =>
          match pingExternal env externalCheckHosts ifstats (record (.sleep 100) s3) with
          | (.error e, s5) => (((none, some e), deferred), s5)
          | (.ok ifstats, s5) =>
            let r := dnsLoop env externalCheckHosts ifstats s5
            if speedTest && r.1.1.dnsOkay then
              match checkSpeed env r.1.2 r.1.1.gateway r.2 with
              | (.error _, s6) => (((none, some "could not run speedtest"), deferred), s6)
              | (.ok v, s6) => (((some { r.1.1 with throughput := v }, none), deferred), s6)
            else (((some r.1.1, none), deferred), r.2)

/-- The function `evaluateInterface`: its statements, then its deferred calls. -/
def evaluateInterface (env : Env) (ifname : String) (speedTest : Bool) (s : State) :
    EvalResult × State :=
  let r := evaluateInterfaceBody env ifname speedTest s
  (r.1.1, runDeferred env r.1.2 r.2)

/-! ## main.go: the monitoring loop of main -/

/-- How one pass of the inner loop of `main` ends. -/
inductive Next where
  | panicNoLowest
  | panicNil
  | ranking
  | monitoring
deriving DecidableEq, Repr

/-- The duration `30 * time.Minute`, in nanoseconds. -/
def thirtyMinutes : Int := 30 * 60 * 1000000000

/-- One second, in nanoseconds. -/
def oneSecond : Int := 1000000000

/-- Body of the loop `for netIf, score := range scores`. -/
def lowestStep (acc : Int × String) (e : String × Int) : Int × String :=
  if e.2 < acc.1 then (e.2, e.1) else acc

/-- The selection of `lowestIfScore` and `lowestIfName` over the entries of `scores`, in the
sequence the `range` loop visits them. -/
def lowestInterface (visit : List (String × Int)) : Int × String :=
  visit.foldl lowestStep (1024, "")

/-- The statements of the inner loop of `main` after `evaluateInterface` has returned, times in
nanoseconds: `lastRanking.Add(30 * time.Minute).Before(time.Now())`. -/
def monitorDecision (res : EvalResult) (lastRanking now : Int) : Next :=
  match res with
  | (_, some _) => .ranking
  | (none, none) => .panicNil
  | (some ifs, none) =>
    if ifs.isBad then .ranking
    else if lastRanking + thirtyMinutes < now then .ranking
    else .monitoring

/-- One pass of the inner loop of `main`; `clock` is what `time.Now()` reads. -/
def monitorIteration (env : Env) (clock : Nat → Int) (visit : List (String × Int))
    (lastRanking : Int) (s : State) : Next × State :=
  if (lowestInterface visit).2 = "" then (.panicNoLowest, s)
  else
    let r := evaluateInterface env (lowestInterface visit).2 false s
    match monitorDecision r.1 lastRanking (clock r.2.trace.length) with
    | .monitoring => (.monitoring, record (.sleep 60000) r.2)
    | n => (n, r.2)

/-! ## Sample data -/

/-- A healthy interface with throughput 100. -/
def sampleWan1 : IfStatus := ⟨"wan1", false, 0, 0, true, true, 100, 16, "*1", "10.0.0.1"⟩

/-- A healthy interface with throughput 50. -/
def sampleWan2 : IfStatus := ⟨"wan2", false, 0, 0, true, true, 50, 48, "*2", "10.0.1.1"⟩

/-- An interface whose DHCP client has no gateway. -/
def sampleWan3 : IfStatus := ⟨"wan3", true, 0, 0, false, false, 0, 0, "*3", ""⟩

/-- A healthy interface with throughput 2 ^ 54. -/
def hugeWan1 : IfStatus := ⟨"wan1", false, 0, 0, true, true, 2 ^ 54, 16, "*1", "10.0.0.1"⟩

/-- A healthy interface with throughput 2 ^ 54 - 1. -/
def hugeWan2 : IfStatus := ⟨"wan2", false, 0, 0, true, true, 2 ^ 54 - 1, 16, "*2", "10.0.1.1"⟩

/-- An interface that lost every probe to the external hosts. -/
def lossyWan : IfStatus := ⟨"wan4", false, 0, 100, true, true, 0, 0, "*4", "10.0.3.1"⟩

/-- An outside world in which every call succeeds and nothing is lost. -/
def quietEnv : Env where
  apiFails := fun _ => false
  newPingerFails := fun _ _ => false
  pingLoss := fun _ _ => some 0
  dnsAnswer := fun _ _ _ => some [some "13.107.4.52"]
  httpGet := fun _ _ => some (200, some "Microsoft Connect Test")
  fetchServersFails := fun _ => false
  findServer := fun _ => some ["speed.example.net:8080"]
  pingTestFails := fun _ _ => false
  downloadSpeed := fun _ _ => some 1000

/-- The quiet world, with the router unreachable from its sixth call on. -/
def cutEnv : Env := { quietEnv with apiFails := fun n => decide (5 ≤ n) }

/-- The quiet world, with a DNS server that answers every query with another address. -/
def rotatingEnv : Env :=
  { quietEnv with dnsAnswer := fun n _ _ => some [some (String.mk (List.replicate n '1'))] }

/-- A router with two DHCP clients, the second without a gateway, and no static route. -/
def sampleRouter : State :=
  ⟨[[("interface", "ether1"), (".id", "*1"), ("gateway", "10.0.0.1"),
      ("default-route-distance", "16")],
    [("interface", "ether2"), (".id", "*2"), ("default-route-distance", "48")]], [], 0, []⟩

/-- The report on `ether1` of the sample router in the quiet world, without bandwidth probe. -/
def healthyEther1 : IfStatus := ⟨"ether1", false, 0, 0, true, true, 0, 16, "*1", "10.0.0.1"⟩

/-- Every route that carries the marker comment leads to one of the destinations `dsts`. -/
def markedWithin (s : State) (dsts : List String) : Prop :=
  ∀ r ∈ s.routes, r.comment = marker → r.dstAddress ∈ dsts

/-- The DNS server gives the same answer each time it is asked the same question. -/
def stableDNS (env : Env) : Prop :=
  ∀ (n n' : Nat) (host server : String), env.dnsAnswer n host server = env.dnsAnswer n' host server

/-- The destinations `staticRouteDNS` routes for a host when the DNS answers are stable. -/
def answerDsts (env : Env) (dnsServer host : String) : List String :=
  match env.dnsAnswer 0 host dnsServer with
  | none => []
  | some answers => (answers.filterMap id).map (fun a => a ++ "/32")

/-- The destinations of all hosts whose `clearStaticRouteDNS` is deferred. -/
def pendingDsts (env : Env) (dnsServer : String) : List String → List String
  | [] => []
  | host :: rest => answerDsts env dnsServer host ++ pendingDsts env dnsServer rest

/-! ## Facts about the float64 operations -/

theorem roundHalfEven_intCast (z : ℤ) : roundHalfEven (z : ℚ) = z := by
  simp [roundHalfEven]

theorem two_zpow_log_le (q : ℚ) (h : q ≠ 0) : (2 : ℚ) ^ Int.log 2 |q| ≤ |q| := by
  have := @Int.zpow_log_le_self ℚ _ _ 2 |q| (by norm_num) (abs_pos.mpr h)
  simpa using this

theorem lt_two_zpow_log_succ (q : ℚ) : |q| < (2 : ℚ) ^ (Int.log 2 |q| + 1) := by
  have := @Int.lt_zpow_succ_log_self ℚ _ _ 2 (by norm_num) |q|
  simpa using this

/-- A significand of fewer than 54 bits times a power of two is a float64 (strict case). -/
theorem f64Round_exact_lt (n k : ℤ) (hn : |n| < 2 ^ 53) :
    f64Round ((n : ℚ) * 2 ^ k) = (n : ℚ) * 2 ^ k := by
  by_cases h0 : n = 0
  · subst h0; simp [f64Round]
  have h2 : (2 : ℚ) ≠ 0 := by norm_num
  have hq : (n : ℚ) * 2 ^ k ≠ 0 := mul_ne_zero (by exact_mod_cast h0) (zpow_ne_zero _ h2)
  have hpos : (0 : ℚ) < 2 ^ k := zpow_pos (by norm_num) _
  have habs : |(n : ℚ) * 2 ^ k| = |(n : ℚ)| * 2 ^ k := by
    rw [abs_mul, abs_of_pos hpos]
  have hnq : |(n : ℚ)| < 2 ^ 53 := by exact_mod_cast hn
  have hlt : (2 : ℚ) ^ Int.log 2 |(n : ℚ) * 2 ^ k| < 2 ^ (k + 53) := by
    calc (2 : ℚ) ^ Int.log 2 |(n : ℚ) * 2 ^ k| ≤ |(n : ℚ) * 2 ^ k| := two_zpow_log_le _ hq
      _ = |(n : ℚ)| * 2 ^ k := habs
      _ < 2 ^ 53 * 2 ^ k := by exact mul_lt_mul_of_pos_right hnq hpos
      _ = 2 ^ (k + 53) := by rw [zpow_add₀ h2, mul_comm]; norm_num
  have hL : Int.log 2 |(n : ℚ) * 2 ^ k| < k + 53 := (zpow_lt_zpow_iff_right₀ (by norm_num)).mp hlt
  unfold f64Round
  rw [if_neg hq]
  simp only
  generalize Int.log 2 |(n : ℚ) * 2 ^ k| = L at hL
  obtain ⟨d, hd⟩ : ∃ d : ℕ, (d : ℤ) = k + 52 - L := ⟨(k + 52 - L).toNat, by omega⟩
  have hk : k = (d : ℤ) + (L - 52) := by omega
  have hdiv : (n : ℚ) * 2 ^ k / 2 ^ (L - 52) = ((n * 2 ^ d : ℤ) : ℚ) := by
    rw [hk, zpow_add₀ h2, ← mul_assoc, mul_div_assoc, div_self (zpow_ne_zero _ h2), mul_one]
    push_cast
    rw [zpow_natCast]
  rw [hdiv, roundHalfEven_intCast]
  push_cast
  rw [hk, zpow_add₀ h2, zpow_natCast, mul_assoc]

theorem f64Round_exact (n k : ℤ) (hn : |n| ≤ 2 ^ 53) :
    f64Round ((n : ℚ) * 2 ^ k) = (n : ℚ) * 2 ^ k := by
  rcases lt_or_eq_of_le hn with h | h
  · exact f64Round_exact_lt n k h
  · have h2 : (2 : ℚ) ≠ 0 := by norm_num
    rcases abs_eq (by norm_num : (0 : ℤ) ≤ 2 ^ 53) |>.mp h with h | h
    · have e : (n : ℚ) * 2 ^ k = ((2 ^ 52 : ℤ) : ℚ) * 2 ^ (k + 1) := by
        rw [h, zpow_add₀ h2]; push_cast; ring
      rw [e]
      exact f64Round_exact_lt _ _ (by norm_num)
    · have e : (n : ℚ) * 2 ^ k = ((-2 ^ 52 : ℤ) : ℚ) * 2 ^ (k + 1) := by
        rw [h, zpow_add₀ h2]; push_cast; ring
      rw [e]
      exact f64Round_exact_lt _ _ (by norm_num)

theorem f64Round_intCast (n : ℤ) (hn : |n| ≤ 2 ^ 53) : f64Round (n : ℚ) = n := by
  have := f64Round_exact n 0 hn
  simpa using this

theorem floor_le_roundHalfEven (q : ℚ) : ⌊q⌋ ≤ roundHalfEven q := by
  unfold roundHalfEven
  simp only
  split_ifs <;> omega

theorem roundHalfEven_le_floor_add_one (q : ℚ) : roundHalfEven q ≤ ⌊q⌋ + 1 := by
  unfold roundHalfEven
  simp only
  split_ifs <;> omega

/-- The scaled significand chosen by `f64Round` has at most 54 bits. -/
theorem abs_roundHalfEven_scaled_le (q : ℚ) :
    |roundHalfEven (q / 2 ^ (Int.log 2 |q| - 52))| ≤ 2 ^ 53 := by
  have h2 : (2 : ℚ) ≠ 0 := by norm_num
  set e := Int.log 2 |q| - 52 with he
  have hpos : (0 : ℚ) < 2 ^ e := zpow_pos (by norm_num) _
  have hs : |q / 2 ^ e| < 2 ^ 53 := by
    rw [abs_div, abs_of_pos hpos, div_lt_iff₀ hpos]
    calc |q| < 2 ^ (Int.log 2 |q| + 1) := lt_two_zpow_log_succ q
      _ = 2 ^ 53 * 2 ^ e := by
        rw [he, show Int.log 2 |q| + 1 = 53 + (Int.log 2 |q| - 52) by ring, zpow_add₀ h2]
        norm_num
  rw [abs_lt] at hs
  have hlo : (-2 ^ 53 : ℤ) ≤ ⌊q / 2 ^ e⌋ := by
    apply Int.le_floor.mpr
    push_cast
    linarith [hs.1]
  have hhi : ⌊q / 2 ^ e⌋ < (2 ^ 53 : ℤ) := by
    apply Int.floor_lt.mpr
    push_cast
    exact hs.2
  have h1 := floor_le_roundHalfEven (q / 2 ^ e)
  have h3 := roundHalfEven_le_floor_add_one (q / 2 ^ e)
  rw [abs_le]
  constructor <;> omega

theorem f64Round_scale (q : ℚ) (j : ℤ) :
    f64Round (f64Round q * 2 ^ j) = f64Round q * 2 ^ j := by
  have h2 : (2 : ℚ) ≠ 0 := by norm_num
  by_cases h0 : q = 0
  · subst h0; simp [f64Round]
  have e : f64Round q * 2 ^ j
      = (roundHalfEven (q / 2 ^ (Int.log 2 |q| - 52)) : ℚ) * 2 ^ (Int.log 2 |q| - 52 + j) := by
    unfold f64Round
    rw [if_neg h0, zpow_add₀ h2, mul_assoc]
  rw [e]
  exact f64Round_exact _ _ (abs_roundHalfEven_scaled_le q)

theorem roundHalfEven_lt_of_add_half_lt (q : ℚ) (n : ℤ) (h : q + 1 / 2 < n) :
    roundHalfEven q < n := by
  have hfl : (⌊q⌋ : ℚ) ≤ q := Int.floor_le q
  have key : ¬ (q - ⌊q⌋ < 1 / 2) → ((⌊q⌋ + 1 : ℤ) : ℚ) < n := by
    intro hr
    push_cast
    linarith
  have hlow : (⌊q⌋ : ℚ) < n := by linarith
  unfold roundHalfEven
  simp only
  split_ifs with h1 h2 h3
  · exact_mod_cast hlow
  · exact_mod_cast key h1
  · exact_mod_cast hlow
  · exact_mod_cast key h1

/-- For a proper fraction `t / m` with `m < 2 ^ 48`, rounding the quotient to float64 does not
move `64 * t / m` across an integer. -/
theorem floor_f64Round_ratio_mul (t m : ℤ) (ht : 0 < t) (htm : t < m) (hm : m < 2 ^ 48) :
    ⌊f64Round ((t : ℚ) / m) * 64⌋ = t * 64 / m := by
  have h2 : (2 : ℚ) ≠ 0 := by norm_num
  have hm0 : 0 < m := lt_trans ht htm
  have hmq : (0 : ℚ) < m := by exact_mod_cast hm0
  have htq : (0 : ℚ) < t := by exact_mod_cast ht
  have hx0 : (0 : ℚ) < (t : ℚ) / m := div_pos htq hmq
  have hx1 : (t : ℚ) / m < 1 := by
    rw [div_lt_one hmq]; exact_mod_cast htm
  have hxne : (t : ℚ) / m ≠ 0 := ne_of_gt hx0
  -- the binary exponent of a proper fraction is negative
  have hL : Int.log 2 |(t : ℚ) / m| < 0 := by
    have h1 := two_zpow_log_le _ hxne
    rw [abs_of_pos hx0] at h1
    have : (2 : ℚ) ^ Int.log 2 |(t : ℚ) / m| < 2 ^ (0 : ℤ) := by
      rw [zpow_zero]; rw [abs_of_pos hx0]; exact lt_of_le_of_lt h1 hx1
    exact (zpow_lt_zpow_iff_right₀ (by norm_num)).mp this
  obtain ⟨p, hp⟩ : ∃ p : ℕ, (p : ℤ) = -(Int.log 2 |(t : ℚ) / m| - 52) - 6 :=
    ⟨(-(Int.log 2 |(t : ℚ) / m| - 52) - 6).toNat, by omega⟩
  have hp47 : 47 ≤ p := by omega
  have he : Int.log 2 |(t : ℚ) / m| - 52 = -((p : ℤ) + 6) := by omega
  have hQ : (0 : ℚ) < 2 ^ p := pow_pos (by norm_num) _
  have hpow : (2 : ℚ) ^ (-((p : ℤ) + 6)) = (64 * 2 ^ p)⁻¹ := by
    rw [zpow_neg, zpow_add₀ h2, zpow_natCast, mul_comm]; norm_num
  set R := roundHalfEven ((t : ℚ) / m / 2 ^ (Int.log 2 |(t : ℚ) / m| - 52)) with hR
  have hval : f64Round ((t : ℚ) / m) * 64 = ((R : ℤ) : ℚ) / ((2 ^ p : ℕ) : ℚ) := by
    unfold f64Round
    rw [if_neg hxne]
    simp only
    rw [← hR, he, hpow]
    push_cast
    field_simp
    ring
  have hs : (t : ℚ) / m / 2 ^ (Int.log 2 |(t : ℚ) / m| - 52) = (t : ℚ) * 64 * 2 ^ p / m := by
    rw [he, hpow]
    field_simp
    ring
  rw [hs] at hR
  rw [hval, Rat.floor_intCast_div_natCast]
  have hPpos : (0 : ℤ) < ((2 ^ p : ℕ) : ℤ) := by positivity
  set k := t * 64 / m with hk
  have hk1 : k * m ≤ t * 64 := Int.ediv_mul_le _ (ne_of_gt hm0)
  have hk2 : t * 64 < (k + 1) * m := Int.lt_ediv_add_one_mul_self _ hm0
  have hPge : (2 : ℤ) ^ 47 ≤ ((2 ^ p : ℕ) : ℤ) := by
    push_cast
    exact pow_le_pow_right₀ (by norm_num : (1 : ℤ) ≤ 2) hp47
  -- lower bound: k * 2 ^ p ≤ R
  have hlow : k * ((2 ^ p : ℕ) : ℤ) ≤ R := by
    refine le_trans ?_ (floor_le_roundHalfEven _)
    rw [hs]
    apply Int.le_floor.mpr
    rw [le_div_iff₀ hmq]
    have : ((k * m : ℤ) : ℚ) ≤ ((t * 64 : ℤ) : ℚ) := by exact_mod_cast hk1
    push_cast at this ⊢
    nlinarith [this, hQ]
  -- upper bound: R < (k + 1) * 2 ^ p
  have hup : R < (k + 1) * ((2 ^ p : ℕ) : ℤ) := by
    rw [hR]
    apply roundHalfEven_lt_of_add_half_lt
    have h1 : ((t * 64 + 1 : ℤ) : ℚ) ≤ (((k + 1) * m : ℤ) : ℚ) := by exact_mod_cast hk2
    have h3 : ((m : ℤ) : ℚ) < 2 * 2 ^ p := by
      have : m < 2 * ((2 ^ p : ℕ) : ℤ) := by omega
      exact_mod_cast this
    push_cast at h1 ⊢
    rw [div_add' _ _ _ (ne_of_gt hmq), div_lt_iff₀ hmq]
    nlinarith [h1, h3, hQ, hmq]
  apply le_antisymm
  · have := (Int.ediv_lt_iff_lt_mul hPpos).mpr hup
    omega
  · exact (Int.le_ediv_iff_mul_le hPpos).mpr hlow

theorem roundHalfEven_nonneg (q : ℚ) (h : 0 ≤ q) : 0 ≤ roundHalfEven q :=
  le_trans (Int.floor_nonneg.mpr h) (floor_le_roundHalfEven q)

theorem f64Round_nonneg (q : ℚ) (h : 0 ≤ q) : 0 ≤ f64Round q := by
  unfold f64Round
  split_ifs with h0
  · exact le_refl _
  · simp only
    apply mul_nonneg
    · exact_mod_cast roundHalfEven_nonneg _ (div_nonneg h (zpow_nonneg (by norm_num) _))
    · exact zpow_nonneg (by norm_num) _

theorem f64ToInt_nonneg (x : ℚ) (h : 0 ≤ x) : 0 ≤ f64ToInt x := by
  unfold f64ToInt
  rw [if_pos h]
  exact Int.floor_nonneg.mpr h

theorem f64ToInt_intCast (z : ℤ) : f64ToInt (z : ℚ) = z := by
  unfold f64ToInt
  split_ifs <;> simp

/-- The penalty is never negative once the guard of the packet-loss statement holds. -/
theorem lossPenalty_nonneg (i : IfStatus)
    (h : i.gatewayPacketLoss > 0 ∨ i.externalPacketLoss > 0) : 0 ≤ lossPenalty i := by
  have hmax : 0 ≤ max i.gatewayPacketLoss i.externalPacketLoss := by
    rcases h with h | h
    · exact le_trans (le_of_lt h) (le_max_left _ _)
    · exact le_trans (le_of_lt h) (le_max_right _ _)
  have hq : 0 ≤ Int.tdiv (max i.gatewayPacketLoss i.externalPacketLoss) 100 :=
    Int.tdiv_nonneg hmax (by norm_num)
  unfold lossPenalty f64Mul f64OfInt
  apply f64ToInt_nonneg
  apply f64Round_nonneg
  apply mul_nonneg _ (by norm_num)
  apply f64Round_nonneg
  exact_mod_cast hq

/-- The float64 detour of the penalty is exact for quotients of at most 53 bits. -/
theorem lossPenalty_eq (i : IfStatus)
    (h0 : 0 ≤ max i.gatewayPacketLoss i.externalPacketLoss)
    (hb : max i.gatewayPacketLoss i.externalPacketLoss < 100 * 2 ^ 53) :
    lossPenalty i = max i.gatewayPacketLoss i.externalPacketLoss / 100 * 1024 := by
  have hdiv : Int.tdiv (max i.gatewayPacketLoss i.externalPacketLoss) 100
      = max i.gatewayPacketLoss i.externalPacketLoss / 100 :=
    Int.tdiv_eq_ediv h0 (by norm_num)
  have hq0 : 0 ≤ max i.gatewayPacketLoss i.externalPacketLoss / 100 :=
    Int.ediv_nonneg h0 (by norm_num)
  have hq1 : max i.gatewayPacketLoss i.externalPacketLoss / 100 < 2 ^ 53 := by
    apply (Int.ediv_lt_iff_lt_mul (by norm_num)).mpr
    linarith
  unfold lossPenalty f64Mul f64OfInt
  rw [hdiv]
  generalize max i.gatewayPacketLoss i.externalPacketLoss / 100 = q at hq0 hq1
  have habs : |q| ≤ 2 ^ 53 := by rw [abs_of_nonneg hq0]; exact le_of_lt hq1
  rw [f64Round_intCast q habs]
  have e : (q : ℚ) * 1024 = (q : ℚ) * 2 ^ (10 : ℤ) := by norm_num
  rw [e, f64Round_exact q 10 habs]
  have e2 : (q : ℚ) * 2 ^ (10 : ℤ) = ((q * 1024 : ℤ) : ℚ) := by push_cast; norm_num
  rw [e2, f64ToInt_intCast]

/-- For throughputs below 2 ^ 48 the float64 computation of the speed score is the integer
quotient `t * 64 / m`. -/
theorem speedScore_eq (t m : ℤ) (ht : 0 ≤ t) (htm : t ≤ m) (hm0 : 0 < m) (hm : m < 2 ^ 48) :
    speedScore t m = t * 64 / m := by
  have habs_t : |t| ≤ 2 ^ 53 := by rw [abs_of_nonneg ht]; linarith
  have habs_m : |m| ≤ 2 ^ 53 := by rw [abs_of_pos hm0]; linarith
  have hmq : (0 : ℚ) < m := by exact_mod_cast hm0
  have htq : (0 : ℚ) ≤ t := by exact_mod_cast ht
  unfold speedScore f64Mul f64Div f64OfInt
  rw [f64Round_intCast t habs_t, f64Round_intCast m habs_m]
  have e64 : ∀ x : ℚ, f64Round x * 64 = f64Round x * 2 ^ (6 : ℤ) := by intro x; norm_num
  rw [e64, f64Round_scale, ← e64]
  have hnn : 0 ≤ f64Round ((t : ℚ) / m) * 64 :=
    mul_nonneg (f64Round_nonneg _ (div_nonneg htq (le_of_lt hmq))) (by norm_num)
  unfold f64ToInt
  rw [if_pos hnn]
  rcases eq_or_lt_of_le ht with h0 | hpos
  · subst h0
    simp [f64Round]
  rcases eq_or_lt_of_le htm with h1 | hlt
  · subst h1
    rw [div_self (ne_of_gt hmq)]
    have : f64Round 1 = 1 := by
      have := f64Round_intCast 1 (by norm_num)
      simpa using this
    rw [this, Int.mul_ediv_cancel_left _ (ne_of_gt hm0)]
    norm_num
  · exact floor_f64Round_ratio_mul t m hpos hlt hm

/-! ## The float64 operations keep the order and the range -/

theorem roundHalfEven_mono (a b : ℚ) (h : a ≤ b) : roundHalfEven a ≤ roundHalfEven b := by
  rcases lt_or_eq_of_le (Int.floor_mono h) with hlt | heq
  · calc roundHalfEven a ≤ ⌊a⌋ + 1 := roundHalfEven_le_floor_add_one a
      _ ≤ ⌊b⌋ := hlt
      _ ≤ roundHalfEven b := floor_le_roundHalfEven b
  · unfold roundHalfEven
    simp only
    rw [← heq]
    have hab : a - ⌊a⌋ ≤ b - ⌊a⌋ := by linarith
    split_ifs <;> first | omega | (exfalso; linarith)

/-- A positive rational and its float64 lie in the same binade, ends included. -/
theorem two_zpow_log_le_f64Round (q : ℚ) (hq : 0 < q) :
    (2 : ℚ) ^ Int.log 2 |q| ≤ f64Round q ∧ f64Round q ≤ (2 : ℚ) ^ (Int.log 2 |q| + 1) := by
  have h2 : (2 : ℚ) ≠ 0 := by norm_num
  have hne : q ≠ 0 := ne_of_gt hq
  have hlo := two_zpow_log_le q hne
  have hhi := lt_two_zpow_log_succ q
  unfold f64Round
  rw [if_neg hne]
  simp only
  generalize Int.log 2 |q| = L at hlo hhi ⊢
  rw [abs_of_pos hq] at hlo hhi
  have hpos : (0 : ℚ) < 2 ^ (L - 52) := zpow_pos (by norm_num) _
  have e1 : (2 : ℚ) ^ L = 4503599627370496 * 2 ^ (L - 52) := by
    have : (2 : ℚ) ^ L = 2 ^ (52 : ℤ) * 2 ^ (L - 52) := by
      rw [← zpow_add₀ h2]; congr 1; ring
    rw [this]; norm_num
  have e2 : (2 : ℚ) ^ (L + 1) = 9007199254740992 * 2 ^ (L - 52) := by
    have : (2 : ℚ) ^ (L + 1) = 2 ^ (53 : ℤ) * 2 ^ (L - 52) := by
      rw [← zpow_add₀ h2]; congr 1; ring
    rw [this]; norm_num
  have hs1 : ((4503599627370496 : ℤ) : ℚ) ≤ q / 2 ^ (L - 52) := by
    rw [le_div_iff₀ hpos]
    push_cast
    linarith
  have hs2 : q / 2 ^ (L - 52) < ((9007199254740992 : ℤ) : ℚ) := by
    rw [div_lt_iff₀ hpos]
    push_cast
    linarith
  have hR1 : (4503599627370496 : ℤ) ≤ roundHalfEven (q / 2 ^ (L - 52)) :=
    le_trans (Int.le_floor.mpr hs1) (floor_le_roundHalfEven _)
  have hR2 : roundHalfEven (q / 2 ^ (L - 52)) ≤ (9007199254740992 : ℤ) := by
    have := Int.floor_lt.mpr hs2
    have h3 := roundHalfEven_le_floor_add_one (q / 2 ^ (L - 52))
    omega
  have hR1q : (4503599627370496 : ℚ) ≤ (roundHalfEven (q / 2 ^ (L - 52)) : ℚ) := by
    exact_mod_cast hR1
  have hR2q : (roundHalfEven (q / 2 ^ (L - 52)) : ℚ) ≤ (9007199254740992 : ℚ) := by
    exact_mod_cast hR2
  rw [e1, e2]
  exact ⟨mul_le_mul_of_nonneg_right hR1q (le_of_lt hpos),
    mul_le_mul_of_nonneg_right hR2q (le_of_lt hpos)⟩

/-- Rounding to float64 keeps the order of non-negative rationals. -/
theorem f64Round_mono (x y : ℚ) (hx : 0 ≤ x) (hxy : x ≤ y) : f64Round x ≤ f64Round y := by
  rcases eq_or_lt_of_le hx with h0 | hpos
  · rw [← h0]
    have : f64Round 0 = 0 := by simp [f64Round]
    rw [this]
    exact f64Round_nonneg y (le_trans hx hxy)
  have hypos : 0 < y := lt_of_lt_of_le hpos hxy
  have hlog : Int.log 2 |x| ≤ Int.log 2 |y| := by
    rw [abs_of_pos hpos, abs_of_pos hypos]
    exact Int.log_mono_right hpos hxy
  rcases lt_or_eq_of_le hlog with hlt | heq
  · calc f64Round x ≤ (2 : ℚ) ^ (Int.log 2 |x| + 1) := (two_zpow_log_le_f64Round x hpos).2
      _ ≤ (2 : ℚ) ^ Int.log 2 |y| := (zpow_le_zpow_iff_right₀ (by norm_num)).mpr (by omega)
      _ ≤ f64Round y := (two_zpow_log_le_f64Round y hypos).1
  · unfold f64Round
    rw [if_neg (ne_of_gt hpos), if_neg (ne_of_gt hypos)]
    simp only
    rw [heq]
    have hp : (0 : ℚ) < 2 ^ (Int.log 2 |y| - 52) := zpow_pos (by norm_num) _
    apply mul_le_mul_of_nonneg_right _ (le_of_lt hp)
    have := roundHalfEven_mono (x / 2 ^ (Int.log 2 |y| - 52)) (y / 2 ^ (Int.log 2 |y| - 52))
      (div_le_div_of_nonneg_right hxy (le_of_lt hp))
    exact_mod_cast this

/-- For losses that are percentages the penalty is 0 or 1024. -/
theorem lossPenalty_percent (i : IfStatus)
    (hg0 : 0 ≤ i.gatewayPacketLoss) (hg1 : i.gatewayPacketLoss ≤ 100)
    (he0 : 0 ≤ i.externalPacketLoss) (he1 : i.externalPacketLoss ≤ 100) :
    0 ≤ lossPenalty i ∧ lossPenalty i ≤ 1024 := by
  have hmax0 : 0 ≤ max i.gatewayPacketLoss i.externalPacketLoss :=
    le_trans (le_min hg0 he0) (le_trans (min_le_left _ _) (le_max_left _ _))
  have hmax1 : max i.gatewayPacketLoss i.externalPacketLoss ≤ 100 := max_le hg1 he1
  rw [lossPenalty_eq i hmax0 (lt_of_le_of_lt hmax1 (by norm_num))]
  constructor <;> omega

/-- For a non-negative throughput that is at most the positive maximum, the float64 quotient
lies between 0 and 1 and the speed score between 0 and 64. -/
theorem speedScore_bounds (t m : ℤ) (ht : 0 ≤ t) (htm : t ≤ m) (hm0 : 0 < m) :
    0 ≤ speedScore t m ∧ speedScore t m ≤ 64 := by
  have h1 : f64Round 1 = 1 := by
    have := f64Round_intCast 1 (by norm_num)
    simpa using this
  have ha0 : 0 ≤ f64Round (t : ℚ) := f64Round_nonneg _ (by exact_mod_cast ht)
  have hab : f64Round (t : ℚ) ≤ f64Round (m : ℚ) :=
    f64Round_mono _ _ (by exact_mod_cast ht) (by exact_mod_cast htm)
  have hb1 : 1 ≤ f64Round (m : ℚ) := by
    rw [← h1]
    apply f64Round_mono 1 _ (by norm_num)
    have : (1 : ℤ) ≤ m := hm0
    exact_mod_cast this
  have hb0 : 0 < f64Round (m : ℚ) := lt_of_lt_of_le (by norm_num) hb1
  have hq0 : 0 ≤ f64Round (t : ℚ) / f64Round (m : ℚ) := div_nonneg ha0 (le_of_lt hb0)
  have hq1 : f64Round (t : ℚ) / f64Round (m : ℚ) ≤ 1 := (div_le_one hb0).mpr hab
  have hr0 : 0 ≤ f64Round (f64Round (t : ℚ) / f64Round (m : ℚ)) := f64Round_nonneg _ hq0
  have hr1 : f64Round (f64Round (t : ℚ) / f64Round (m : ℚ)) ≤ 1 := by
    rw [← h1]
    exact f64Round_mono _ _ hq0 hq1
  have e64 : ∀ x : ℚ, f64Round x * 64 = f64Round x * 2 ^ (6 : ℤ) := by intro x; norm_num
  unfold speedScore f64Mul f64Div f64OfInt
  rw [e64, f64Round_scale, ← e64]
  have hnn : 0 ≤ f64Round (f64Round (t : ℚ) / f64Round (m : ℚ)) * 64 :=
    mul_nonneg hr0 (by norm_num)
  refine ⟨f64ToInt_nonneg _ hnn, ?_⟩
  unfold f64ToInt
  rw [if_pos hnn]
  have hle : f64Round (f64Round (t : ℚ) / f64Round (m : ℚ)) * 64 ≤ ((64 : ℤ) : ℚ) := by
    push_cast
    linarith
  have hfl := Int.floor_mono hle
  rw [Int.floor_intCast] at hfl
  exact hfl

/-! ## Facts about the score table -/

theorem lookup_set_self (m : Scores) (k : String) (v : Int) :
    (Scores.set m k v).lookup k = some v := by
  induction m with
  | nil => simp [Scores.set, List.lookup]
  | cons e rest ih =>
    obtain ⟨k', v'⟩ := e
    unfold Scores.set
    by_cases h : k' = k
    · subst h; simp [List.lookup]
    · have h' : (k == k') = false := by simpa using fun e => h e.symm
      simp [h, List.lookup, h', ih]

theorem lookup_set_ne (m : Scores) (k k' : String) (v : Int) (h : k' ≠ k) :
    (Scores.set m k v).lookup k' = m.lookup k' := by
  induction m with
  | nil =>
    have h' : (k' == k) = false := by simpa using h
    simp [Scores.set, List.lookup, h']
  | cons e rest ih =>
    obtain ⟨k1, v1⟩ := e
    unfold Scores.set
    by_cases h1 : k1 = k
    · subst h1
      have h' : (k' == k1) = false := by simpa using h
      simp [List.lookup, h']
    · simp only [h1, if_false, List.lookup]
      cases (k' == k1) <;> simp [ih]

theorem get_set_self (m : Scores) (k : String) (v : Int) : (Scores.set m k v).get k = v := by
  simp [Scores.get, lookup_set_self]

theorem get_set_ne (m : Scores) (k k' : String) (v : Int) (h : k' ≠ k) :
    (Scores.set m k v).get k' = m.get k' := by
  simp [Scores.get, lookup_set_ne m k k' v h]

theorem set_set (m : Scores) (k : String) (v w : Int) :
    Scores.set (Scores.set m k v) k w = Scores.set m k w := by
  induction m with
  | nil => simp [Scores.set]
  | cons e rest ih =>
    obtain ⟨k', v'⟩ := e
    by_cases h : k' = k
    · simp [Scores.set, h]
    · simp [Scores.set, h, ih]

theorem mem_set (m : Scores) (k : String) (v : Int) (e : String × Int)
    (h : e ∈ Scores.set m k v) : e = (k, v) ∨ e ∈ m := by
  induction m with
  | nil => simpa [Scores.set] using h
  | cons e' rest ih =>
    obtain ⟨k', v'⟩ := e'
    unfold Scores.set at h
    by_cases hk : k' = k
    · simp only [hk, if_true, List.mem_cons] at h
      rcases h with h | h
      · exact Or.inl h
      · exact Or.inr (List.mem_cons_of_mem _ h)
    · simp only [hk, if_false, List.mem_cons] at h
      rcases h with h | h
      · exact Or.inr (by rw [h]; exact List.mem_cons_self _ _)
      · rcases ih h with h | h
        · exact Or.inl h
        · exact Or.inr (List.mem_cons_of_mem _ h)

theorem set_ne_nil (m : Scores) (k : String) (v : Int) : Scores.set m k v ≠ [] := by
  cases m with
  | nil => simp [Scores.set]
  | cons e rest =>
    obtain ⟨k', v'⟩ := e
    unfold Scores.set
    split_ifs <;> simp

/-- One pass of the loop body rewrites exactly the entry of its interface. -/
theorem scoreBody_eq (maxThroughput : Int) (scores : Scores) (i : IfStatus) :
    scoreBody maxThroughput scores i
      = scores.set i.ifName (entryAfter maxThroughput (scores.get i.ifName) i) := by
  unfold scoreBody entryAfter lossStep dnsStep connStep speedStep
  by_cases h1 : i.invalidConfig = true
  · simp [h1]
  · simp only [h1]
    split_ifs <;> simp [set_set, get_set_self]

theorem foldl_scoreInit (l : List IfStatus) (tbl : Scores) (a : Int) :
    l.foldl scoreInit (tbl, a)
      = (l.foldl (fun t i => Scores.set t i.ifName 16) tbl,
          l.foldl (fun m i => max m i.throughput) a) := by
  induction l generalizing tbl a with
  | nil => rfl
  | cons i rest ih => simp only [List.foldl_cons, scoreInit, ih]

theorem lookup_init_of_not_mem (l : List IfStatus) (tbl : Scores) (k : String)
    (h : k ∉ l.map IfStatus.ifName) :
    (l.foldl (fun t i => Scores.set t i.ifName 16) tbl).lookup k = tbl.lookup k := by
  induction l generalizing tbl with
  | nil => rfl
  | cons i rest ih =>
    simp only [List.map_cons, List.mem_cons, not_or] at h
    simp only [List.foldl_cons]
    rw [ih _ h.2, lookup_set_ne _ _ _ _ h.1]

theorem lookup_init_of_mem (l : List IfStatus) (tbl : Scores) (k : String)
    (h : k ∈ l.map IfStatus.ifName) :
    (l.foldl (fun t i => Scores.set t i.ifName 16) tbl).lookup k = some 16 := by
  induction l generalizing tbl with
  | nil => simp at h
  | cons i rest ih =>
    simp only [List.foldl_cons]
    by_cases hr : k ∈ rest.map IfStatus.ifName
    · exact ih _ hr
    · simp only [List.map_cons, List.mem_cons] at h
      rcases h with h | h
      · rw [lookup_init_of_not_mem _ _ _ hr, h, lookup_set_self]
      · exact absurd h hr

theorem lookup_foldl_scoreBody_of_not_mem (m : Int) (l : List IfStatus) (tbl : Scores)
    (k : String) (h : k ∉ l.map IfStatus.ifName) :
    (l.foldl (scoreBody m) tbl).lookup k = tbl.lookup k := by
  induction l generalizing tbl with
  | nil => rfl
  | cons i rest ih =>
    simp only [List.map_cons, List.mem_cons, not_or] at h
    simp only [List.foldl_cons]
    rw [ih _ h.2, scoreBody_eq, lookup_set_ne _ _ _ _ h.1]

theorem lookup_foldl_scoreBody_of_mem (m : Int) (l : List IfStatus) (tbl : Scores)
    (i : IfStatus) (hnd : (l.map IfStatus.ifName).Nodup) (hi : i ∈ l) :
    (l.foldl (scoreBody m) tbl).lookup i.ifName
      = some (entryAfter m (tbl.get i.ifName) i) := by
  induction l generalizing tbl with
  | nil => simp at hi
  | cons j rest ih =>
    simp only [List.map_cons, List.nodup_cons] at hnd
    simp only [List.foldl_cons]
    rcases List.mem_cons.mp hi with h | h
    · subst h
      rw [lookup_foldl_scoreBody_of_not_mem _ _ _ _ hnd.1, scoreBody_eq, lookup_set_self]
    · have hne : i.ifName ≠ j.ifName := by
        intro e
        exact hnd.1 (e ▸ List.mem_map_of_mem _ h)
      rw [ih _ hnd.2 h, scoreBody_eq, get_set_ne _ _ _ _ hne]

theorem maxThroughputOf_perm (l l' : List IfStatus) (h : l.Perm l') :
    maxThroughputOf l = maxThroughputOf l' := by
  unfold maxThroughputOf
  apply List.Perm.foldl_eq' h
  intro x _ y _ z
  simp only [max_assoc, max_comm x.throughput y.throughput]

theorem foldl_max_le_iff (l : List IfStatus) (a b : Int) :
    l.foldl (fun m i => max m i.throughput) a ≤ b ↔ a ≤ b ∧ ∀ j ∈ l, j.throughput ≤ b := by
  induction l generalizing a with
  | nil => simp
  | cons i rest ih =>
    simp only [List.foldl_cons, ih, max_le_iff, List.mem_cons, forall_eq_or_imp]
    tauto

theorem maxThroughputOf_nonneg (l : List IfStatus) : 0 ≤ maxThroughputOf l :=
  ((foldl_max_le_iff l 0 _).mp (le_refl _)).1

theorem le_maxThroughputOf (l : List IfStatus) (i : IfStatus) (h : i ∈ l) :
    i.throughput ≤ maxThroughputOf l :=
  ((foldl_max_le_iff l 0 _).mp (le_refl _)).2 i h

/-- A bound that is attained and is at least 0 is the running maximum. -/
theorem maxThroughputOf_eq (l : List IfStatus) (m : Int) (h0 : 0 ≤ m)
    (hle : ∀ j ∈ l, j.throughput ≤ m) (hat : ∃ j ∈ l, j.throughput = m) :
    maxThroughputOf l = m := by
  apply le_antisymm
  · exact (foldl_max_le_iff l 0 m).mpr ⟨h0, hle⟩
  · obtain ⟨j, hj, e⟩ := hat
    rw [← e]
    exact le_maxThroughputOf l j hj

/-- The table returned by `scoreInterfaces`, read at the key of a report of the batch. -/
theorem lookup_scoreInterfaces (first second : List IfStatus) (i : IfStatus)
    (hnd : (first.map IfStatus.ifName).Nodup) (hp : second.Perm first) (hi : i ∈ first) :
    (scoreInterfaces first second).lookup i.ifName
      = some (entryAfter (maxThroughputOf first) 16 i) := by
  have hnd2 : (second.map IfStatus.ifName).Nodup := (hp.map _).nodup_iff.mpr hnd
  have hi2 : i ∈ second := hp.mem_iff.mpr hi
  unfold scoreInterfaces
  simp only [foldl_scoreInit]
  rw [lookup_foldl_scoreBody_of_mem _ _ _ _ hnd2 hi2]
  have : Scores.get (first.foldl (fun t i => Scores.set t i.ifName 16) []) i.ifName = 16 := by
    unfold Scores.get
    rw [lookup_init_of_mem _ _ _ (List.mem_map_of_mem _ hi)]
    rfl
  rw [this]
  rfl

/-- The table returned by `scoreInterfaces` has no entry for a name outside the batch. -/
theorem lookup_scoreInterfaces_none (first second : List IfStatus) (k : String)
    (hp : second.Perm first) (hk : k ∉ first.map IfStatus.ifName) :
    (scoreInterfaces first second).lookup k = none := by
  have hk2 : k ∉ second.map IfStatus.ifName := fun h => hk ((hp.map _).mem_iff.mp h)
  unfold scoreInterfaces
  simp only [foldl_scoreInit]
  rw [lookup_foldl_scoreBody_of_not_mem _ _ _ _ hk2, lookup_init_of_not_mem _ _ _ hk]
  rfl

/-! ## Facts about the entry a report receives -/

theorem entryAfter_invalid (m base : Int) (i : IfStatus) (h : i.invalidConfig = true) :
    entryAfter m base i = 256 := by
  simp [entryAfter, h]

theorem entryAfter_le (m base : Int) (i : IfStatus) : entryAfter m base i ≤ 256 := by
  unfold entryAfter
  by_cases h : i.invalidConfig = true
  · rw [if_pos h]
  · rw [if_neg h]
    exact le_trans (min_le_left _ _) (by norm_num)

theorem entryAfter_valid_bounds (m : Int) (i : IfStatus) (h : i.invalidConfig = false) :
    16 ≤ entryAfter m 16 i ∧ entryAfter m 16 i ≤ 255 := by
  unfold entryAfter
  simp only [h, Bool.false_eq_true, if_false]
  refine ⟨?_, min_le_left _ _⟩
  apply le_min (by norm_num)
  have hmax : (0 : Int) ≤ max 0 (64 - speedScore i.throughput m) := le_max_left _ _
  by_cases hl : i.gatewayPacketLoss > 0 ∨ i.externalPacketLoss > 0
  · have hp := lossPenalty_nonneg i hl
    simp only [hl, if_true]
    split_ifs <;> omega
  · simp only [hl, if_false]
    split_ifs <;> omega

theorem entryAfter_healthy (m : Int) (i : IfStatus) (hv : i.invalidConfig = false)
    (hg : i.gatewayPacketLoss = 0) (he : i.externalPacketLoss = 0) (hd : i.dnsOkay = true)
    (hc : i.msftConnTest = true) (hm : 0 < m) :
    entryAfter m 16 i = min 255 (16 + max 0 (64 - speedScore i.throughput m)) := by
  simp [entryAfter, hv, hg, he, hd, hc, hm]

theorem mem_foldl_init (l : List IfStatus) (tbl : Scores) (e : String × Int)
    (h : e ∈ l.foldl (fun t i => Scores.set t i.ifName 16) tbl) :
    e ∈ tbl ∨ (e.1 ∈ l.map IfStatus.ifName ∧ e.2 ≤ 256) := by
  induction l generalizing tbl with
  | nil => exact Or.inl h
  | cons i rest ih =>
    simp only [List.foldl_cons] at h
    rcases ih _ h with h1 | h1
    · rcases mem_set _ _ _ _ h1 with h2 | h2
      · right
        rw [h2]
        exact ⟨by simp, by norm_num⟩
      · exact Or.inl h2
    · right
      exact ⟨List.mem_cons_of_mem _ h1.1, h1.2⟩

theorem mem_foldl_scoreBody (m : Int) (l : List IfStatus) (tbl : Scores) (e : String × Int)
    (h : e ∈ l.foldl (scoreBody m) tbl) :
    e ∈ tbl ∨ (e.1 ∈ l.map IfStatus.ifName ∧ e.2 ≤ 256) := by
  induction l generalizing tbl with
  | nil => exact Or.inl h
  | cons i rest ih =>
    simp only [List.foldl_cons] at h
    rcases ih _ h with h1 | h1
    · rw [scoreBody_eq] at h1
      rcases mem_set _ _ _ _ h1 with h2 | h2
      · right
        rw [h2]
        exact ⟨by simp, entryAfter_le _ _ _⟩
      · exact Or.inl h2
    · right
      exact ⟨List.mem_cons_of_mem _ h1.1, h1.2⟩

theorem foldl_init_ne_nil (l : List IfStatus) (tbl : Scores) (h : tbl ≠ [] ∨ l ≠ []) :
    l.foldl (fun t i => Scores.set t i.ifName 16) tbl ≠ [] := by
  induction l generalizing tbl with
  | nil => simpa using h
  | cons i rest ih =>
    simp only [List.foldl_cons]
    exact ih _ (Or.inl (set_ne_nil _ _ _))

theorem foldl_scoreBody_ne_nil (m : Int) (l : List IfStatus) (tbl : Scores) (h : tbl ≠ []) :
    l.foldl (scoreBody m) tbl ≠ [] := by
  induction l generalizing tbl with
  | nil => exact h
  | cons i rest ih =>
    simp only [List.foldl_cons]
    apply ih
    rw [scoreBody_eq]
    exact set_ne_nil _ _ _

/-- Every entry of the returned table belongs to a report of the batch and is at most 256. -/
theorem mem_scoreInterfaces (first second : List IfStatus) (hp : second.Perm first)
    (e : String × Int) (h : e ∈ scoreInterfaces first second) :
    e.1 ∈ first.map IfStatus.ifName ∧ e.2 ≤ 256 := by
  unfold scoreInterfaces at h
  simp only [foldl_scoreInit] at h
  rcases mem_foldl_scoreBody _ _ _ _ h with h1 | h1
  · rcases mem_foldl_init _ _ _ h1 with h2 | h2
    · simp at h2
    · exact h2
  · exact ⟨(hp.map _).mem_iff.mp h1.1, h1.2⟩

theorem scoreInterfaces_ne_nil (first second : List IfStatus) (h : first ≠ []) :
    scoreInterfaces first second ≠ [] := by
  unfold scoreInterfaces
  simp only [foldl_scoreInit]
  exact foldl_scoreBody_ne_nil _ _ _ (foldl_init_ne_nil _ _ (Or.inr h))

/-- The selection loop returns its start value or an entry it visited, and nothing visited is
smaller than what it returns. -/
theorem foldl_lowestStep (visit : List (String × Int)) (acc : Int × String) :
    (visit.foldl lowestStep acc).1 ≤ acc.1
      ∧ (∀ e ∈ visit, (visit.foldl lowestStep acc).1 ≤ e.2)
      ∧ (visit.foldl lowestStep acc = acc
          ∨ ((visit.foldl lowestStep acc).2, (visit.foldl lowestStep acc).1) ∈ visit) := by
  induction visit generalizing acc with
  | nil => simp
  | cons e rest ih =>
    simp only [List.foldl_cons]
    obtain ⟨h1, h2, h3⟩ := ih (lowestStep acc e)
    have hstep : (lowestStep acc e).1 ≤ acc.1 ∧ (lowestStep acc e).1 ≤ e.2 := by
      unfold lowestStep
      split_ifs with hlt
      · exact ⟨le_of_lt hlt, le_refl _⟩
      · exact ⟨le_refl _, not_lt.mp hlt⟩
    refine ⟨le_trans h1 hstep.1, ?_, ?_⟩
    · intro e' he'
      rcases List.mem_cons.mp he' with h | h
      · rw [h]; exact le_trans h1 hstep.2
      · exact h2 e' h
    · rcases h3 with h | h
      · rw [h]
        unfold lowestStep
        split_ifs with hlt
        · right; simp
        · left; rfl
      · right
        exact List.mem_cons_of_mem _ h

theorem monitorDecision_ne_panicNoLowest (res : EvalResult) (lastRanking now : Int) :
    monitorDecision res lastRanking now ≠ Next.panicNoLowest := by
  unfold monitorDecision
  split
  · simp
  · simp
  · split_ifs <;> simp

/-! ## The claims about the scorer -/

/-- C1: in a batch of reports with distinct interface names, a report with
`invalidConfig = true` gets the score 256, whatever its other fields and the other reports
are, and in whatever order the two loops visit the batch. -/
theorem invalidConfig_scores_256 (first second : List IfStatus) (i : IfStatus)
    (hnd : (first.map IfStatus.ifName).Nodup) (hp : second.Perm first) (hi : i ∈ first)
    (hinv : i.invalidConfig = true) :
    (scoreInterfaces first second).lookup i.ifName = some 256 := by
  rw [lookup_scoreInterfaces first second i hnd hp hi, entryAfter_invalid _ _ _ hinv]

/-- C2: in a batch of reports with distinct interface names and non-negative throughputs, a
report with `invalidConfig = false` whose packet losses are percentages (0 to 100) gets a
score between 16 and 255. On these inputs the penalty is at most 1024 and the speed score lies
between 0 and 64, so every value the computation passes through is a small 64-bit integer and
no conversion or addition leaves the range of a Go int. -/
theorem validConfig_score_bounds (first second : List IfStatus) (i : IfStatus)
    (hnd : (first.map IfStatus.ifName).Nodup) (hp : second.Perm first) (hi : i ∈ first)
    (hv : i.invalidConfig = false)
    (hthr : ∀ j ∈ first, 0 ≤ j.throughput)
    (hg0 : 0 ≤ i.gatewayPacketLoss) (hg1 : i.gatewayPacketLoss ≤ 100)
    (he0 : 0 ≤ i.externalPacketLoss) (he1 : i.externalPacketLoss ≤ 100) :
    (∃ s : Int, (scoreInterfaces first second).lookup i.ifName = some s ∧ 16 ≤ s ∧ s ≤ 255)
      ∧ (0 ≤ lossPenalty i ∧ lossPenalty i ≤ 1024)
      ∧ (0 < maxThroughputOf first →
          0 ≤ speedScore i.throughput (maxThroughputOf first)
            ∧ speedScore i.throughput (maxThroughputOf first) ≤ 64) :=
  ⟨⟨_, lookup_scoreInterfaces first second i hnd hp hi, entryAfter_valid_bounds _ i hv⟩,
    lossPenalty_percent i hg0 hg1 he0 he1,
    fun hm => speedScore_bounds _ _ (hthr i hi) (le_maxThroughputOf first i hi) hm⟩

/-- C3: for packet losses that are percentages (0 to 100), the packet-loss statement adds
`max gatewayPacketLoss externalPacketLoss / 100 * 1024` to the entry of the interface: nothing
when the larger loss is at most 99, and 1024 when it is 100. -/
theorem lossStep_adds_truncated_penalty (scores : Scores) (i : IfStatus)
    (hg0 : 0 ≤ i.gatewayPacketLoss) (hg1 : i.gatewayPacketLoss ≤ 100)
    (he0 : 0 ≤ i.externalPacketLoss) (he1 : i.externalPacketLoss ≤ 100) :
    (lossStep scores i).get i.ifName
        = scores.get i.ifName + max i.gatewayPacketLoss i.externalPacketLoss / 100 * 1024
      ∧ (max i.gatewayPacketLoss i.externalPacketLoss ≤ 99 →
          (lossStep scores i).get i.ifName = scores.get i.ifName)
      ∧ (max i.gatewayPacketLoss i.externalPacketLoss = 100 →
          (lossStep scores i).get i.ifName = scores.get i.ifName + 1024) := by
  have hmax0 : 0 ≤ max i.gatewayPacketLoss i.externalPacketLoss := le_trans hg0 (le_max_left _ _)
  have hmax1 : max i.gatewayPacketLoss i.externalPacketLoss ≤ 100 := max_le hg1 he1
  have key : (lossStep scores i).get i.ifName
      = scores.get i.ifName + max i.gatewayPacketLoss i.externalPacketLoss / 100 * 1024 := by
    unfold lossStep
    split_ifs with hgd
    · rw [get_set_self, lossPenalty_eq i hmax0 (lt_of_le_of_lt hmax1 (by norm_num))]
    · have h1 : i.gatewayPacketLoss = 0 := by omega
      have h2 : i.externalPacketLoss = 0 := by omega
      simp [h1, h2]
  refine ⟨key, ?_, ?_⟩
  · intro h
    rw [key]
    have : max i.gatewayPacketLoss i.externalPacketLoss / 100 = 0 := by omega
    rw [this]; ring
  · intro h
    rw [key, h]; norm_num

/-- C4: for a batch of reports with distinct interface names, the table returned by
`scoreInterfaces` does not depend on the orders in which its two loops visit the batch. -/
theorem scoreInterfaces_order_independent (batch first second first' second' : List IfStatus)
    (hnd : (batch.map IfStatus.ifName).Nodup)
    (h1 : first.Perm batch) (h2 : second.Perm batch)
    (h1' : first'.Perm batch) (h2' : second'.Perm batch) (k : String) :
    (scoreInterfaces first second).lookup k = (scoreInterfaces first' second').lookup k := by
  have hndf : (first.map IfStatus.ifName).Nodup := (h1.map _).nodup_iff.mpr hnd
  have hndf' : (first'.map IfStatus.ifName).Nodup := (h1'.map _).nodup_iff.mpr hnd
  by_cases hk : k ∈ batch.map IfStatus.ifName
  · obtain ⟨i, hi, rfl⟩ := List.mem_map.mp hk
    rw [lookup_scoreInterfaces first second i hndf (h2.trans h1.symm) (h1.mem_iff.mpr hi),
      lookup_scoreInterfaces first' second' i hndf' (h2'.trans h1'.symm) (h1'.mem_iff.mpr hi),
      maxThroughputOf_perm _ _ h1, maxThroughputOf_perm _ _ h1']
  · rw [lookup_scoreInterfaces_none first second k (h2.trans h1.symm)
        (fun h => hk ((h1.map _).mem_iff.mp h)),
      lookup_scoreInterfaces_none first' second' k (h2'.trans h1'.symm)
        (fun h => hk ((h1'.map _).mem_iff.mp h))]

theorem invalidConfig_scores_256_witness :
    ([sampleWan1, sampleWan3].map IfStatus.ifName).Nodup
      ∧ [sampleWan3, sampleWan1].Perm [sampleWan1, sampleWan3]
      ∧ sampleWan3 ∈ [sampleWan1, sampleWan3]
      ∧ sampleWan3.invalidConfig = true
      ∧ (scoreInterfaces [sampleWan1, sampleWan3] [sampleWan3, sampleWan1]).lookup
          sampleWan3.ifName = some 256 :=
  ⟨by decide, List.Perm.swap _ _ _, by decide, rfl,
    invalidConfig_scores_256 [sampleWan1, sampleWan3] [sampleWan3, sampleWan1] sampleWan3
      (by decide) (List.Perm.swap _ _ _) (by decide) rfl⟩

theorem validConfig_score_bounds_witness :
    ([sampleWan3, sampleWan2].map IfStatus.ifName).Nodup
      ∧ [sampleWan2, sampleWan3].Perm [sampleWan3, sampleWan2]
      ∧ sampleWan2 ∈ [sampleWan3, sampleWan2]
      ∧ sampleWan2.invalidConfig = false
      ∧ (∀ j ∈ [sampleWan3, sampleWan2], 0 ≤ j.throughput)
      ∧ (0 ≤ sampleWan2.gatewayPacketLoss ∧ sampleWan2.gatewayPacketLoss ≤ 100)
      ∧ (0 ≤ sampleWan2.externalPacketLoss ∧ sampleWan2.externalPacketLoss ≤ 100)
      ∧ ∃ s : Int, (scoreInterfaces [sampleWan3, sampleWan2] [sampleWan2, sampleWan3]).lookup
          sampleWan2.ifName = some s ∧ 16 ≤ s ∧ s ≤ 255 :=
  ⟨by decide, List.Perm.swap _ _ _, by decide, rfl, by decide, by decide, by decide,
    (validConfig_score_bounds [sampleWan3, sampleWan2] [sampleWan2, sampleWan3] sampleWan2
      (by decide) (List.Perm.swap _ _ _) (by decide) rfl (by decide)
      (by decide) (by decide) (by decide) (by decide)).1⟩

theorem lossStep_adds_truncated_penalty_witness :
    (0 : Int) ≤ lossyWan.gatewayPacketLoss ∧ lossyWan.gatewayPacketLoss ≤ 100
      ∧ 0 ≤ lossyWan.externalPacketLoss ∧ lossyWan.externalPacketLoss ≤ 100
      ∧ (lossStep [("wan4", 16)] lossyWan).get lossyWan.ifName
          = Scores.get [("wan4", 16)] lossyWan.ifName
            + max lossyWan.gatewayPacketLoss lossyWan.externalPacketLoss / 100 * 1024 :=
  ⟨by decide, by decide, by decide, by decide,
    (lossStep_adds_truncated_penalty [("wan4", 16)] lossyWan
      (by decide) (by decide) (by decide) (by decide)).1⟩

theorem scoreInterfaces_order_independent_witness :
    ([sampleWan1, sampleWan2].map IfStatus.ifName).Nodup
      ∧ [sampleWan1, sampleWan2].Perm [sampleWan1, sampleWan2]
      ∧ [sampleWan2, sampleWan1].Perm [sampleWan1, sampleWan2]
      ∧ (scoreInterfaces [sampleWan1, sampleWan2] [sampleWan1, sampleWan2]).lookup "wan2"
          = (scoreInterfaces [sampleWan2, sampleWan1] [sampleWan2, sampleWan1]).lookup "wan2" :=
  ⟨by decide, List.Perm.refl _, List.Perm.swap _ _ _,
    scoreInterfaces_order_independent [sampleWan1, sampleWan2] [sampleWan1, sampleWan2]
      [sampleWan1, sampleWan2] [sampleWan2, sampleWan1] [sampleWan2, sampleWan1]
      (by decide) (List.Perm.refl _) (List.Perm.refl _) (List.Perm.swap _ _ _)
      (List.Perm.swap _ _ _) "wan2"⟩

/-- C10: on the score table of a non-empty batch of reports with distinct, non-empty interface
names, visited in any order, the selection of `main` (start at 1024, keep what is strictly
smaller) ends on an entry of the table whose score is at most every score in the table; its
name is not empty, so the pass does not take the branch `could not find the lowest
interface`. The names need not even be distinct for this. -/
theorem lowestInterface_is_minimum (env : Env) (clock : Nat → Int) (lastRanking : Int)
    (s : State) (first second : List IfStatus) (visit : List (String × Int))
    (hne : first ≠ []) (hp : second.Perm first)
    (hnames : ∀ i ∈ first, i.ifName ≠ "")
    (hv : visit.Perm (scoreInterfaces first second)) :
    ((lowestInterface visit).2, (lowestInterface visit).1) ∈ scoreInterfaces first second
      ∧ (∀ e ∈ scoreInterfaces first second, (lowestInterface visit).1 ≤ e.2)
      ∧ (lowestInterface visit).2 ≠ ""
      ∧ (monitorIteration env clock visit lastRanking s).1 ≠ Next.panicNoLowest := by
  obtain ⟨_, hmin, hsel⟩ := foldl_lowestStep visit (1024, "")
  have hmem : ((lowestInterface visit).2, (lowestInterface visit).1) ∈ visit := by
    rcases hsel with h | h
    · exfalso
      obtain ⟨e, he⟩ := List.exists_mem_of_ne_nil _ (scoreInterfaces_ne_nil first second hne)
      have h1 := hmin e (hv.mem_iff.mpr he)
      have h2 := (mem_scoreInterfaces first second hp e he).2
      rw [h] at h1
      simp only at h1
      omega
    · exact h
  have hmem2 := hv.mem_iff.mp hmem
  have hname : (lowestInterface visit).2 ≠ "" := by
    obtain ⟨i, hi, e⟩ := List.mem_map.mp (mem_scoreInterfaces first second hp _ hmem2).1
    simp only at e
    rw [← e]
    exact hnames i hi
  refine ⟨hmem2, fun e he => hmin e (hv.mem_iff.mpr he), hname, ?_⟩
  unfold monitorIteration
  rw [if_neg hname]
  simp only
  split
  · simp
  · rename_i n _ hn
    exact monitorDecision_ne_panicNoLowest _ _ _

theorem lowestInterface_is_minimum_witness :
    [sampleWan1, sampleWan2] ≠ []
      ∧ [sampleWan2, sampleWan1].Perm [sampleWan1, sampleWan2]
      ∧ (∀ i ∈ [sampleWan1, sampleWan2], i.ifName ≠ "")
      ∧ (scoreInterfaces [sampleWan1, sampleWan2] [sampleWan2, sampleWan1]).Perm
          (scoreInterfaces [sampleWan1, sampleWan2] [sampleWan2, sampleWan1])
      ∧ (lowestInterface
          (scoreInterfaces [sampleWan1, sampleWan2] [sampleWan2, sampleWan1])).2 ≠ ""
      ∧ (monitorIteration quietEnv (fun _ => 0)
          (scoreInterfaces [sampleWan1, sampleWan2] [sampleWan2, sampleWan1]) 0
          sampleRouter).1 ≠ Next.panicNoLowest :=
  ⟨by decide, List.Perm.swap _ _ _, by decide, List.Perm.refl _,
    (lowestInterface_is_minimum quietEnv (fun _ => 0) 0 sampleRouter
      [sampleWan1, sampleWan2] [sampleWan2, sampleWan1]
      (scoreInterfaces [sampleWan1, sampleWan2] [sampleWan2, sampleWan1])
      (by decide) (List.Perm.swap _ _ _) (by decide) (List.Perm.refl _)).2.2⟩

/-! ## The throughput term -/

theorem log_abs_eq (q : ℚ) (L : ℤ) (h0 : q ≠ 0) (h1 : (2 : ℚ) ^ L ≤ |q|)
    (h2 : |q| < (2 : ℚ) ^ (L + 1)) : Int.log 2 |q| = L := by
  have hpos : 0 < |q| := abs_pos.mpr h0
  apply le_antisymm
  · have := (@Int.lt_zpow_iff_log_lt ℚ _ _ 2 (by norm_num) (L + 1) |q| hpos).mp
      (by simpa using h2)
    omega
  · exact (@Int.zpow_le_iff_le_log ℚ _ _ 2 (by norm_num) L |q| hpos).mp (by simpa using h1)

/-- The int 2 ^ 54 - 1 has 54 bits and lies halfway between two float64 values; the conversion
takes the even one, 2 ^ 54. -/
theorem f64OfInt_tie : f64OfInt (2 ^ 54 - 1) = 18014398509481984 := by
  have hlog : Int.log 2 |(18014398509481983 : ℚ)| = 53 :=
    log_abs_eq _ 53 (by norm_num) (by rw [abs_of_pos (by norm_num)]; norm_num)
      (by rw [abs_of_pos (by norm_num)]; norm_num)
  have hf : ⌊(18014398509481983 / 2 : ℚ)⌋ = 9007199254740991 := by
    rw [Int.floor_eq_iff]; constructor <;> norm_num
  have hr : roundHalfEven (18014398509481983 / 2) = 9007199254740992 := by
    unfold roundHalfEven
    simp only [hf]
    norm_num
  have e : ((2 ^ 54 - 1 : ℤ) : ℚ) = 18014398509481983 := by norm_num
  unfold f64OfInt f64Round
  rw [e, if_neg (by norm_num)]
  simp only
  rw [hlog]
  have e1 : (2 : ℚ) ^ ((53 : ℤ) - 52) = 2 := by norm_num
  rw [e1, hr]
  norm_num

theorem speedScore_huge : speedScore (2 ^ 54 - 1) (2 ^ 54) = 64 := by
  have h1 : f64OfInt (2 ^ 54) = 18014398509481984 := by
    unfold f64OfInt
    have := f64Round_exact 1 54 (by norm_num)
    norm_num at this ⊢
    exact this
  have h2 : f64Round 1 = 1 := by
    have := f64Round_intCast 1 (by norm_num)
    simpa using this
  have h3 : f64Round 64 = 64 := by
    have := f64Round_intCast 64 (by norm_num)
    simpa using this
  unfold speedScore f64Mul f64Div
  rw [f64OfInt_tie, h1]
  norm_num [h2, h3, f64ToInt]

/-- The bound 2 ^ 48 is sharp up to 63: at `m = 2 ^ 48 + 63` the quotient `t / m` with
`64 * t = 63 * m - 1` rounds up to the float64 63/64, and the speed score is 63 where
`t * 64 / m` is 62. -/
theorem speedScore_rounds_up_above_bound :
    speedScore 277076930199614 (2 ^ 48 + 63) = 63
      ∧ (277076930199614 * 64 / (2 ^ 48 + 63) : Int) = 62 := by
  refine ⟨?_, by decide⟩
  have ht : f64OfInt 277076930199614 = 277076930199614 := by
    unfold f64OfInt
    have := f64Round_intCast 277076930199614 (by norm_num)
    simpa using this
  have hm : f64OfInt (2 ^ 48 + 63) = 281474976710719 := by
    unfold f64OfInt
    have := f64Round_intCast (2 ^ 48 + 63) (by norm_num)
    norm_num at this ⊢
    exact this
  have hlog : Int.log 2 |(277076930199614 / 281474976710719 : ℚ)| = -1 :=
    log_abs_eq _ (-1) (by norm_num) (by rw [abs_of_pos (by norm_num)]; norm_num)
      (by rw [abs_of_pos (by norm_num)]; norm_num)
  have hf : ⌊(277076930199614 / 281474976710719 / 2 ^ ((-1 : ℤ) - 52) : ℚ)⌋
      = 8866461766385663 := by
    rw [Int.floor_eq_iff]; constructor <;> norm_num
  have hr : roundHalfEven (277076930199614 / 281474976710719 / 2 ^ ((-1 : ℤ) - 52))
      = 8866461766385664 := by
    unfold roundHalfEven
    simp only [hf]
    norm_num
  have hq : f64Round (277076930199614 / 281474976710719) = 63 / 64 := by
    unfold f64Round
    rw [if_neg (by norm_num)]
    simp only
    rw [hlog, hr]
    norm_num
  have h63 : f64Round 63 = 63 := by
    have := f64Round_intCast 63 (by norm_num)
    simpa using this
  unfold speedScore f64Mul f64Div
  rw [ht, hm, hq]
  norm_num [h63, f64ToInt]

/-- C5, as amended: in a batch of reports with distinct interface names whose maximum
throughput `m` is positive and below 2 ^ 48, a valid-config report with no gateway or external
loss, working DNS, validated connectivity and a throughput `t` with `0 ≤ t` gets the score
`16 + max 0 (64 - t * 64 / m)` with the integer quotient; the report with the maximum
throughput gets 16. -/
theorem healthy_score_by_throughput (first second : List IfStatus) (i : IfStatus) (m : Int)
    (hnd : (first.map IfStatus.ifName).Nodup) (hp : second.Perm first) (hi : i ∈ first)
    (hv : i.invalidConfig = false) (hg : i.gatewayPacketLoss = 0)
    (he : i.externalPacketLoss = 0) (hd : i.dnsOkay = true) (hc : i.msftConnTest = true)
    (hm0 : 0 < m) (hmb : m < 2 ^ 48)
    (hle : ∀ j ∈ first, j.throughput ≤ m) (hat : ∃ j ∈ first, j.throughput = m)
    (ht : 0 ≤ i.throughput) :
    (scoreInterfaces first second).lookup i.ifName
        = some (16 + max 0 (64 - i.throughput * 64 / m))
      ∧ (i.throughput = m → (scoreInterfaces first second).lookup i.ifName = some 16) := by
  have key : (scoreInterfaces first second).lookup i.ifName
      = some (16 + max 0 (64 - i.throughput * 64 / m)) := by
    rw [lookup_scoreInterfaces first second i hnd hp hi,
      maxThroughputOf_eq first m (le_of_lt hm0) hle hat,
      entryAfter_healthy m i hv hg he hd hc hm0,
      speedScore_eq i.throughput m ht (hle i hi) hm0 hmb]
    have hq : 0 ≤ i.throughput * 64 / m :=
      Int.ediv_nonneg (mul_nonneg ht (by norm_num)) (le_of_lt hm0)
    congr 1
    apply min_eq_right
    have : max 0 (64 - i.throughput * 64 / m) ≤ 64 := max_le (by norm_num) (by omega)
    omega
  refine ⟨key, ?_⟩
  intro htm
  rw [key, htm, Int.mul_ediv_cancel_left _ (ne_of_gt hm0)]
  norm_num

theorem healthy_score_by_throughput_witness :
    ([sampleWan1, sampleWan2].map IfStatus.ifName).Nodup
      ∧ [sampleWan2, sampleWan1].Perm [sampleWan1, sampleWan2]
      ∧ sampleWan1 ∈ [sampleWan1, sampleWan2] ∧ sampleWan2 ∈ [sampleWan1, sampleWan2]
      ∧ (∀ j ∈ [sampleWan1, sampleWan2], j.throughput ≤ 100)
      ∧ (∃ j ∈ [sampleWan1, sampleWan2], j.throughput = 100)
      ∧ (scoreInterfaces [sampleWan1, sampleWan2] [sampleWan2, sampleWan1]).lookup "wan1"
          = some 16
      ∧ (scoreInterfaces [sampleWan1, sampleWan2] [sampleWan2, sampleWan1]).lookup "wan2"
          = some 48 :=
  ⟨by decide, List.Perm.swap _ _ _, by decide, by decide, by decide, by decide,
    (healthy_score_by_throughput [sampleWan1, sampleWan2] [sampleWan2, sampleWan1] sampleWan1
      100 (by decide) (List.Perm.swap _ _ _) (by decide) rfl rfl rfl rfl rfl (by decide)
      (by decide) (by decide) (by decide) (by decide)).2 rfl,
    (healthy_score_by_throughput [sampleWan1, sampleWan2] [sampleWan2, sampleWan1] sampleWan2
      100 (by decide) (List.Perm.swap _ _ _) (by decide) rfl rfl rfl rfl rfl (by decide)
      (by decide) (by decide) (by decide) (by decide)).1⟩

/-- C5 as stated fails for 64-bit throughputs: of two healthy interfaces with throughputs
2 ^ 54 and 2 ^ 54 - 1 the second gets 16, because `float64(2 ^ 54 - 1)` is 2 ^ 54, where
`16 + max 0 (64 - t * 64 / m)` is 17. -/
theorem healthy_score_by_throughput_fails_unbounded :
    ([hugeWan1, hugeWan2].map IfStatus.ifName).Nodup
      ∧ (∀ j ∈ [hugeWan1, hugeWan2], j.invalidConfig = false)
      ∧ (∀ j ∈ [hugeWan1, hugeWan2], j.throughput ≤ 2 ^ 54)
      ∧ hugeWan1.throughput = 2 ^ 54
      ∧ (0 ≤ hugeWan2.throughput ∧ hugeWan2.throughput ≤ 2 ^ 54)
      ∧ (hugeWan2.gatewayPacketLoss = 0 ∧ hugeWan2.externalPacketLoss = 0
          ∧ hugeWan2.dnsOkay = true ∧ hugeWan2.msftConnTest = true)
      ∧ (scoreInterfaces [hugeWan1, hugeWan2] [hugeWan1, hugeWan2]).lookup hugeWan2.ifName
          = some 16
      ∧ (16 + max 0 (64 - hugeWan2.throughput * 64 / 2 ^ 54) : Int) = 17 := by
  refine ⟨by decide, by decide, by decide, rfl, by decide, by decide, ?_, by decide⟩
  rw [lookup_scoreInterfaces [hugeWan1, hugeWan2] [hugeWan1, hugeWan2] hugeWan2 (by decide)
      (List.Perm.refl _) (by decide),
    maxThroughputOf_eq [hugeWan1, hugeWan2] (2 ^ 54) (by norm_num) (by decide)
      ⟨hugeWan1, by decide, rfl⟩,
    entryAfter_healthy (2 ^ 54) hugeWan2 rfl rfl rfl rfl rfl (by norm_num)]
  have : hugeWan2.throughput = 2 ^ 54 - 1 := rfl
  rw [this, speedScore_huge]
  norm_num

/-! ## The claims about the badness predicate and the monitoring loop -/

/-- What `isBad` tests: a flag, or a packet loss greater than zero. -/
theorem isBad_iff (ifs : IfStatus) :
    ifs.isBad = true ↔
      (ifs.invalidConfig = true ∨ ifs.dnsOkay = false ∨ ifs.msftConnTest = false
        ∨ ifs.gatewayPacketLoss > 0 ∨ ifs.externalPacketLoss > 0) := by
  unfold IfStatus.isBad
  cases ifs.invalidConfig <;> cases ifs.dnsOkay <;> cases ifs.msftConnTest <;>
    by_cases h1 : ifs.gatewayPacketLoss > 0 <;> by_cases h2 : ifs.externalPacketLoss > 0 <;>
    simp [h1, h2]

/-- C6: on every report whose packet losses are not negative (they are the percentages that
`evaluateInterface` writes from `int(stats.PacketLoss)`), `isBad` returns true if and only if
`invalidConfig` is true, or `dnsOkay` is false, or `msftConnTest` is false, or
`gatewayPacketLoss` is nonzero, or `externalPacketLoss` is nonzero. -/
theorem isBad_iff_nonzero (ifs : IfStatus)
    (hg : 0 ≤ ifs.gatewayPacketLoss) (he : 0 ≤ ifs.externalPacketLoss) :
    ifs.isBad = true ↔
      (ifs.invalidConfig = true ∨ ifs.dnsOkay = false ∨ ifs.msftConnTest = false
        ∨ ifs.gatewayPacketLoss ≠ 0 ∨ ifs.externalPacketLoss ≠ 0) := by
  have h1 : ifs.gatewayPacketLoss > 0 ↔ ifs.gatewayPacketLoss ≠ 0 := by omega
  have h2 : ifs.externalPacketLoss > 0 ↔ ifs.externalPacketLoss ≠ 0 := by omega
  rw [isBad_iff, h1, h2]

theorem isBad_iff_nonzero_witness :
    (0 ≤ lossyWan.gatewayPacketLoss ∧ 0 ≤ lossyWan.externalPacketLoss)
      ∧ lossyWan.externalPacketLoss ≠ 0
      ∧ lossyWan.isBad = true :=
  ⟨by decide, by decide,
    (isBad_iff_nonzero lossyWan (by decide) (by decide)).mpr
      (Or.inr (Or.inr (Or.inr (Or.inr (by decide)))))⟩

theorem monitorDecision_not_bad (ifs : IfStatus) (lastRanking now : Int)
    (hbad : ifs.isBad = false) :
    monitorDecision (some ifs, none) lastRanking now
      = if lastRanking + thirtyMinutes < now then Next.ranking else Next.monitoring := by
  simp [monitorDecision, hbad]

/-- C7: in a pass of the monitoring loop whose `evaluateInterface` call returned a report
that is not bad, the loop stays in monitoring if at most 30 minutes have passed between the
last ranking and the reading of `time.Now()`, and goes back to ranking if more have; so it
stays after 30 minutes less one second and leaves after 30 minutes and one second. Times are
in nanoseconds. -/
theorem monitoring_expiry (env : Env) (clock : Nat → Int) (visit : List (String × Int))
    (lastRanking : Int) (s : State) (ifs : IfStatus)
    (hname : (lowestInterface visit).2 ≠ "")
    (heval : (evaluateInterface env (lowestInterface visit).2 false s).1 = (some ifs, none))
    (hbad : ifs.isBad = false) :
    (clock (evaluateInterface env (lowestInterface visit).2 false s).2.trace.length
          - lastRanking ≤ thirtyMinutes →
        (monitorIteration env clock visit lastRanking s).1 = Next.monitoring)
      ∧ (thirtyMinutes
          < clock (evaluateInterface env (lowestInterface visit).2 false s).2.trace.length
            - lastRanking →
        (monitorIteration env clock visit lastRanking s).1 = Next.ranking)
      ∧ monitorDecision (some ifs, none) lastRanking (lastRanking + thirtyMinutes - oneSecond)
          = Next.monitoring
      ∧ monitorDecision (some ifs, none) lastRanking (lastRanking + thirtyMinutes + oneSecond)
          = Next.ranking := by
  refine ⟨?_, ?_, ?_, ?_⟩
  · intro h
    unfold monitorIteration
    rw [if_neg hname]
    simp only [heval]
    rw [monitorDecision_not_bad ifs _ _ hbad, if_neg (by omega)]
  · intro h
    unfold monitorIteration
    rw [if_neg hname]
    simp only [heval]
    rw [monitorDecision_not_bad ifs _ _ hbad, if_pos (by omega)]
  · rw [monitorDecision_not_bad ifs _ _ hbad, if_neg (by unfold oneSecond; omega)]
  · rw [monitorDecision_not_bad ifs _ _ hbad, if_pos (by unfold oneSecond; omega)]

theorem monitoring_expiry_witness :
    (lowestInterface [("ether1", 16), ("ether2", 256)]).2 ≠ ""
      ∧ (evaluateInterface quietEnv (lowestInterface [("ether1", 16), ("ether2", 256)]).2
          false sampleRouter).1 = (some healthyEther1, none)
      ∧ healthyEther1.isBad = false
      ∧ (monitorIteration quietEnv (fun _ => 500 + thirtyMinutes - oneSecond)
          [("ether1", 16), ("ether2", 256)] 500 sampleRouter).1 = Next.monitoring
      ∧ (monitorIteration quietEnv (fun _ => 500 + thirtyMinutes + oneSecond)
          [("ether1", 16), ("ether2", 256)] 500 sampleRouter).1 = Next.ranking :=
  ⟨by decide, rfl, by decide,
    (monitoring_expiry quietEnv (fun _ => 500 + thirtyMinutes - oneSecond)
      [("ether1", 16), ("ether2", 256)] 500 sampleRouter healthyEther1
      (by decide) rfl (by decide)).1 (by decide),
    (monitoring_expiry quietEnv (fun _ => 500 + thirtyMinutes + oneSecond)
      [("ether1", 16), ("ether2", 256)] 500 sampleRouter healthyEther1
      (by decide) rfl (by decide)).2.1 (by decide)⟩

/-! ## The claims about evaluateInterface -/

/-- C8: when the DHCP client configuration fetched for the interface has no gateway field,
`evaluateInterface` returns, without an error, a report with `invalidConfig = true`; the
route table is unchanged and the only outside call it made is the fetch itself, so no probe
ran and no static route was added or removed. -/
theorem evaluateInterface_without_gateway (env : Env) (ifname : String) (speedTest : Bool)
    (s s1 : State) (dhcp : Obj)
    (hfetch : dhcpInfo env ifname s = (.ok dhcp, s1))
    (hgw : dhcp.lookup "gateway" = none) :
    (∃ ifs : IfStatus, (evaluateInterface env ifname speedTest s).1 = (some ifs, none)
        ∧ ifs.invalidConfig = true ∧ ifs.ifName = ifname)
      ∧ (evaluateInterface env ifname speedTest s).2.routes = s.routes
      ∧ (evaluateInterface env ifname speedTest s).2.trace
          = s.trace ++ [Event.apiGet "ip/dhcp-client"] := by
  have hs1 : s1 = record (.apiGet "ip/dhcp-client") s := by
    unfold dhcpInfo at hfetch
    split_ifs at hfetch
    all_goals exact (Prod.mk.inj hfetch).2.symm
  unfold evaluateInterface evaluateInterfaceBody
  simp only [hfetch, hgw, runDeferred]
  subst hs1
  exact ⟨⟨_, rfl, rfl, rfl⟩, rfl, rfl⟩

theorem evaluateInterface_without_gateway_witness :
    dhcpInfo quietEnv "ether2" sampleRouter
        = (.ok [("interface", "ether2"), (".id", "*2"), ("default-route-distance", "48")],
            record (.apiGet "ip/dhcp-client") sampleRouter)
      ∧ List.lookup "gateway"
          [("interface", "ether2"), (".id", "*2"), ("default-route-distance", "48")] = none
      ∧ (evaluateInterface quietEnv "ether2" true sampleRouter).2.routes = sampleRouter.routes
      ∧ (evaluateInterface quietEnv "ether2" true sampleRouter).2.trace
          = sampleRouter.trace ++ [Event.apiGet "ip/dhcp-client"] :=
  ⟨rfl, rfl,
    (evaluateInterface_without_gateway quietEnv "ether2" true sampleRouter
      (record (.apiGet "ip/dhcp-client") sampleRouter)
      [("interface", "ether2"), (".id", "*2"), ("default-route-distance", "48")]
      rfl rfl).2⟩

/-! ## Transient routes -/

theorem record_routes (ev : Event) (s : State) : (record ev s).routes = s.routes := rfl

theorem getRoutes_routes (env : Env) (s : State) : (getRoutes env s).2.routes = s.routes := by
  unfold getRoutes
  split_ifs <;> rfl

theorem getRoutes_ok (env : Env) (s : State) (hapi : ∀ n, env.apiFails n = false) :
    getRoutes env s = (.ok s.routes, record (.apiGet "ip/route") s) := by
  unfold getRoutes
  simp [hapi]

theorem deleteRoute_sub (env : Env) (id : Nat) (s : State) (r : Route)
    (h : r ∈ (deleteRoute env id s).2.routes) : r ∈ s.routes := by
  unfold deleteRoute at h
  split_ifs at h
  · exact h
  · exact (List.mem_filter.mp h).1

theorem deleteRoute_ok (env : Env) (id : Nat) (s : State) (hapi : ∀ n, env.apiFails n = false) :
    deleteRoute env id s
      = (.ok (), { record (.apiDelete id) s with
          routes := s.routes.filter (fun r => r.id ≠ id) }) := by
  unfold deleteRoute
  simp [hapi]

theorem deleteMatching_sub (env : Env) (ip : String) (l : List Route) (s : State) (r : Route)
    (h : r ∈ (deleteMatching env ip l s).2.routes) : r ∈ s.routes := by
  induction l generalizing s with
  | nil => exact h
  | cons r' rs ih =>
    unfold deleteMatching at h
    split_ifs at h with hd
    · split at h
      · rename_i e s1 heq
        have : s1 = (deleteRoute env r'.id s).2 := by rw [heq]
        rw [this] at h
        exact deleteRoute_sub _ _ _ _ h
      · rename_i u s1 heq
        have : s1 = (deleteRoute env r'.id s).2 := by rw [heq]
        rw [this] at h
        exact deleteRoute_sub _ _ _ _ (ih _ h)
    · exact ih _ h

/-- With a reachable router, the loop of `clearStaticRoute` leaves no route whose id is the id
of a fetched route to the destination. -/
theorem deleteMatching_removes (env : Env) (ip : String) (l : List Route) (s : State)
    (hapi : ∀ n, env.apiFails n = false) (r : Route)
    (h : r ∈ (deleteMatching env ip l s).2.routes) :
    ∀ r' ∈ l, r'.dstAddress = ip → r.id ≠ r'.id := by
  induction l generalizing s with
  | nil => intro r' hr'; simp at hr'
  | cons r0 rs ih =>
    intro r' hr' hdst
    unfold deleteMatching at h
    by_cases hd : r0.dstAddress = ip
    · rw [if_pos hd, deleteRoute_ok env r0.id s hapi] at h
      simp only at h
      rcases List.mem_cons.mp hr' with e | hmem
      · have hsub := deleteMatching_sub _ _ _ _ _ h
        simp only [List.mem_filter, decide_eq_true_eq] at hsub
        rw [e]
        exact hsub.2
      · exact ih _ h r' hmem hdst
    · rw [if_neg hd] at h
      rcases List.mem_cons.mp hr' with e | hmem
      · rw [e] at hdst
        exact absurd hdst hd
      · exact ih _ h r' hmem hdst

theorem clearStaticRoute_sub (env : Env) (ip : String) (s : State) (r : Route)
    (h : r ∈ (clearStaticRoute env ip s).2.routes) : r ∈ s.routes := by
  unfold clearStaticRoute at h
  split at h
  · rename_i e s1 heq
    have : s1 = (getRoutes env s).2 := by rw [heq]
    rw [this, getRoutes_routes] at h
    exact h
  · rename_i routes s1 heq
    have : s1 = (getRoutes env s).2 := by rw [heq]
    have h2 := deleteMatching_sub _ _ _ _ _ h
    rw [this, getRoutes_routes] at h2
    exact h2

/-- With a reachable router, `clearStaticRoute` leaves no route to the destination. -/
theorem clearStaticRoute_removes (env : Env) (ip : String) (s : State)
    (hapi : ∀ n, env.apiFails n = false) (r : Route)
    (h : r ∈ (clearStaticRoute env ip s).2.routes) : r.dstAddress ≠ ip := by
  intro hdst
  have hsub := clearStaticRoute_sub _ _ _ _ h
  unfold clearStaticRoute at h
  rw [getRoutes_ok env s hapi] at h
  simp only at h
  exact deleteMatching_removes env ip s.routes _ hapi r h r hsub hdst rfl

theorem setStaticRoute_mem (env : Env) (ip gw : String) (s : State) (r : Route)
    (h : r ∈ (setStaticRoute env ip gw s).2.routes) :
    r ∈ s.routes ∨ r.dstAddress = ip := by
  unfold setStaticRoute at h
  split_ifs at h
  · exact Or.inl h
  · simp only [List.mem_append, List.mem_singleton] at h
    rcases h with h | h
    · exact Or.inl h
    · right; rw [h]

theorem setStaticRoute_error_routes (env : Env) (ip gw : String) (s s' : State) (e : String)
    (h : setStaticRoute env ip gw s = (.error e, s')) : s'.routes = s.routes := by
  unfold setStaticRoute at h
  split_ifs at h
  · rw [← (Prod.mk.inj h).2]
    rfl
  · exact absurd (Prod.mk.inj h).1 (by simp)

theorem markedWithin_mono (s s' : State) (D D' : List String)
    (hsub : ∀ r ∈ s'.routes, r ∈ s.routes) (hD : ∀ d ∈ D, d ∈ D')
    (h : markedWithin s D) : markedWithin s' D' :=
  fun r hr hc => hD _ (h r (hsub r hr) hc)

theorem markedWithin_of_routes_eq (s s' : State) (D : List String)
    (e : s'.routes = s.routes) (h : markedWithin s D) : markedWithin s' D := by
  unfold markedWithin
  rw [e]
  exact h

/-- The install loop registers a deferred removal for every route it has put. -/
theorem installRoutes_marked (env : Env) (gw : String) (addrs deferred D : List String)
    (s : State) (h : markedWithin s (deferred ++ D)) :
    markedWithin (installRoutes env gw addrs deferred s).2
      ((installRoutes env gw addrs deferred s).1.2 ++ D) := by
  induction addrs generalizing deferred s with
  | nil => exact h
  | cons a rest ih =>
    have hclear : markedWithin (clearStaticRoute env (a ++ "/32") s).2 (deferred ++ D) :=
      markedWithin_mono s _ _ _ (fun r hr => clearStaticRoute_sub _ _ _ _ hr) (fun _ hd => hd) h
    unfold installRoutes
    split
    · rename_i e s1 heq
      have : s1 = (clearStaticRoute env (a ++ "/32") s).2 := by rw [heq]
      rw [this]
      exact hclear
    · rename_i u s1 heq
      have hs1 : s1 = (clearStaticRoute env (a ++ "/32") s).2 := by rw [heq]
      have hset : markedWithin (setStaticRoute env (a ++ "/32") gw s1).2
          (((a ++ "/32") :: deferred) ++ D) := by
        intro r hr hc
        rcases setStaticRoute_mem _ _ _ _ _ hr with h1 | h1
        · rw [hs1] at h1
          exact List.mem_cons_of_mem _ (hclear r h1 hc)
        · rw [h1]
          exact List.mem_cons_self _ _
      split
      · rename_i e s2 heq2
        have hr2 : s2.routes = s1.routes := setStaticRoute_error_routes _ _ _ _ _ _ heq2
        apply markedWithin_of_routes_eq _ _ _ hr2
        rw [hs1]
        exact hclear
      · rename_i u2 s2 heq2
        have : s2 = (setStaticRoute env (a ++ "/32") gw s1).2 := by rw [heq2]
        rw [this]
        exact ih _ _ hset

theorem runDeferred_sub (env : Env) (deferred : List String) (s : State) (r : Route)
    (h : r ∈ (runDeferred env deferred s).routes) : r ∈ s.routes := by
  induction deferred generalizing s with
  | nil => exact h
  | cons d rest ih =>
    unfold runDeferred at h
    exact clearStaticRoute_sub _ _ _ _ (ih _ h)

/-- With a reachable router, the deferred calls remove every marked route that was registered
with them. -/
theorem runDeferred_marked (env : Env) (deferred D : List String) (s : State)
    (hapi : ∀ n, env.apiFails n = false) (h : markedWithin s (deferred ++ D)) :
    markedWithin (runDeferred env deferred s) D := by
  induction deferred generalizing s with
  | nil => exact h
  | cons d rest ih =>
    unfold runDeferred
    apply ih
    intro r hr hc
    have h1 := h r (clearStaticRoute_sub _ _ _ _ hr) hc
    have h2 := clearStaticRoute_removes env d s hapi r hr
    simp only [List.cons_append, List.mem_cons] at h1
    rcases h1 with h1 | h1
    · exact absurd h1 h2
    · exact h1

theorem connectTest_routes (env : Env) (s : State) : (connectTest env s).2.routes = s.routes := by
  unfold connectTest
  simp only
  split
  · rfl
  · split_ifs
    · rfl
    · split <;> rfl

theorem getARecords_routes (env : Env) (hostname dnsServer : String) (s : State) :
    (getARecords env hostname dnsServer s).2.routes = s.routes := by
  unfold getARecords
  simp only
  split <;> rfl

theorem checkDNS_routes (env : Env) (dnsServer : String) (s : State) :
    (checkDNS env dnsServer s).2.routes = s.routes := by
  unfold checkDNS
  simp only
  split <;> rfl

theorem ping_routes (env : Env) (addr : String) (s : State) :
    (ping env addr s).2.routes = s.routes := by
  unfold ping
  split_ifs
  · rfl
  · split <;> rfl

theorem pingExternal_routes (env : Env) (addrs : List String) (ifs : IfStatus) (s : State) :
    (pingExternal env addrs ifs s).2.routes = s.routes := by
  induction addrs generalizing ifs s with
  | nil => rfl
  | cons a rest ih =>
    unfold pingExternal
    split
    · rename_i s1 heq
      have : s1 = (ping env a s).2 := by rw [heq]
      rw [this]; exact ping_routes _ _ _
    · rename_i s1 heq
      have : s1 = (ping env a s).2 := by rw [heq]
      rw [this]; exact ping_routes _ _ _
    · rename_i l s1 heq
      have : s1 = (ping env a s).2 := by rw [heq]
      rw [ih, this]; exact ping_routes _ _ _

theorem dhcpInfo_routes (env : Env) (iface : String) (s : State) :
    (dhcpInfo env iface s).2.routes = s.routes := by
  unfold dhcpInfo
  split_ifs <;> rfl

/-- With a reachable router, `msftConnCheck` removes the routes it has put. -/
theorem msftConnCheck_marked (env : Env) (dnsServer gw : String) (s : State) (D : List String)
    (hapi : ∀ n, env.apiFails n = false) (h : markedWithin s D) :
    markedWithin (msftConnCheck env dnsServer gw s).2 D := by
  have hrec : ∀ s1 : State, s1 = (getARecords env "www.msftconnecttest.com" dnsServer s).2 →
      markedWithin s1 D := by
    intro s1 e
    exact markedWithin_of_routes_eq s s1 D (by rw [e, getARecords_routes]) h
  unfold msftConnCheck
  split
  · rename_i e s1 heq
    exact hrec s1 (by rw [heq])
  · rename_i addrs s1 heq
    have h1 := hrec s1 (by rw [heq])
    split_ifs
    · exact h1
    · have hinst := installRoutes_marked env gw addrs [] D s1 (by simpa using h1)
      split
      · rename_i f deferred s2 heq2
        rw [heq2] at hinst
        exact runDeferred_marked env deferred D s2 hapi hinst
      · rename_i deferred s2 heq2
        rw [heq2] at hinst
        simp only
        apply runDeferred_marked env deferred D _ hapi
        exact markedWithin_of_routes_eq s2 _ _ (connectTest_routes env s2) hinst

theorem dnsLoop_marked (env : Env) (hosts : List String) (ifs : IfStatus) (s : State)
    (D : List String) (hapi : ∀ n, env.apiFails n = false) (h : markedWithin s D) :
    markedWithin (dnsLoop env hosts ifs s).2 D := by
  induction hosts generalizing s with
  | nil => exact h
  | cons d rest ih =>
    unfold dnsLoop
    split
    · rename_i s1 heq
      have hs1 : s1 = (checkDNS env d s).2 := by rw [heq]
      simp only
      apply msftConnCheck_marked env d ifs.gateway s1 D hapi
      exact markedWithin_of_routes_eq s s1 D (by rw [hs1, checkDNS_routes]) h
    · rename_i s1 heq
      have hs1 : s1 = (checkDNS env d s).2 := by rw [heq]
      apply ih
      exact markedWithin_of_routes_eq s s1 D (by rw [hs1, checkDNS_routes]) h

theorem getARecords_eq (env : Env) (hostname dnsServer : String) (s : State)
    (hdns : stableDNS env) :
    (getARecords env hostname dnsServer s).1
      = (match env.dnsAnswer 0 hostname dnsServer with
        | none => .error "exchange failed"
        | some answers => .ok (answers.filterMap id)) := by
  unfold getARecords
  simp only
  rw [hdns s.trace.length 0]
  split <;> rfl

theorem staticRouteAll_marked (env : Env) (gw : String) (addrs D : List String) (s : State)
    (h : markedWithin s D) :
    markedWithin (staticRouteAll env gw addrs s).2 (addrs.map (fun a => a ++ "/32") ++ D) := by
  induction addrs generalizing s D with
  | nil => exact h
  | cons a rest ih =>
    have hclear : markedWithin (clearStaticRoute env (a ++ "/32") s).2 D :=
      markedWithin_mono s _ _ _ (fun r hr => clearStaticRoute_sub _ _ _ _ hr) (fun _ hd => hd) h
    have hwiden : ∀ d ∈ rest.map (fun a => a ++ "/32") ++ ((a ++ "/32") :: D),
        d ∈ (a :: rest).map (fun a => a ++ "/32") ++ D := by
      intro d hd
      rw [List.map_cons]
      rcases List.mem_append.mp hd with h1 | h1
      · exact List.mem_append_left _ (List.mem_cons_of_mem _ h1)
      · rcases List.mem_cons.mp h1 with h2 | h2
        · rw [h2]
          exact List.mem_append_left _ (List.mem_cons_self _ _)
        · exact List.mem_append_right _ h2
    unfold staticRouteAll
    split
    · rename_i e s1 heq
      have hr := congrArg (fun p => p.2) heq
      simp only at hr
      rw [← hr]
      exact markedWithin_mono _ _ _ _ (fun _ hr => hr) (fun d hd => by simp [hd]) hclear
    · rename_i u s1 heq
      have hs1 : s1 = (clearStaticRoute env (a ++ "/32") s).2 := by rw [heq]
      have hset : markedWithin (setStaticRoute env (a ++ "/32") gw s1).2 ((a ++ "/32") :: D) := by
        intro r hr hc
        rcases setStaticRoute_mem _ _ _ _ _ hr with h1 | h1
        · rw [hs1] at h1
          exact List.mem_cons_of_mem _ (hclear r h1 hc)
        · rw [h1]
          exact List.mem_cons_self _ _
      split
      · rename_i e s2 heq2
        have hr := congrArg (fun p => p.2) heq2
        simp only at hr
        rw [← hr]
        exact markedWithin_mono _ _ _ _ (fun _ hr => hr)
          (fun d hd => hwiden d (List.mem_append_right _ hd)) hset
      · rename_i u2 s2 heq2
        have hr := congrArg (fun p => p.2) heq2
        simp only at hr
        rw [← hr]
        exact markedWithin_mono _ _ _ _ (fun _ hr => hr) hwiden (ih _ _ hset)

theorem staticRouteDNS_marked (env : Env) (host dnsServer gw : String) (D : List String)
    (s : State) (hdns : stableDNS env) (h : markedWithin s D) :
    markedWithin (staticRouteDNS env host dnsServer gw s).2
      (answerDsts env dnsServer host ++ D) := by
  have h1 : markedWithin (getARecords env host dnsServer s).2 D :=
    markedWithin_of_routes_eq s _ D (getARecords_routes _ _ _ _) h
  have hres := getARecords_eq env host dnsServer s hdns
  unfold staticRouteDNS
  split
  · rename_i e s1 heq
    rw [heq] at h1
    exact markedWithin_mono _ _ _ _ (fun _ hr => hr) (fun d hd => by simp [hd]) h1
  · rename_i addrs s1 heq
    rw [heq] at h1 hres
    simp only at h1 hres
    have hd : answerDsts env dnsServer host = addrs.map (fun a => a ++ "/32") := by
      unfold answerDsts
      split at hres
      · exact absurd hres (by simp)
      · injection hres with hres
        rw [hres]
    rw [hd]
    exact staticRouteAll_marked env gw addrs D s1 h1

theorem clearStaticRouteAll_sub (env : Env) (addrs : List String) (s : State) (r : Route)
    (h : r ∈ (clearStaticRouteAll env addrs s).2.routes) : r ∈ s.routes := by
  induction addrs generalizing s with
  | nil => exact h
  | cons a rest ih =>
    unfold clearStaticRouteAll at h
    split at h
    · rename_i e s1 heq
      have hr := congrArg (fun p => p.2) heq
      simp only at hr
      rw [← hr] at h
      exact clearStaticRoute_sub _ _ _ _ h
    · rename_i u s1 heq
      have hr := congrArg (fun p => p.2) heq
      simp only at hr
      have h1 := ih _ h
      rw [← hr] at h1
      exact clearStaticRoute_sub _ _ _ _ h1

theorem clearStaticRoute_ok (env : Env) (ip : String) (s : State)
    (hapi : ∀ n, env.apiFails n = false) : (clearStaticRoute env ip s).1 = .ok () := by
  have key : ∀ (l : List Route) (s : State), (deleteMatching env ip l s).1 = .ok () := by
    intro l
    induction l with
    | nil => intro s; rfl
    | cons r rs ih =>
      intro s
      unfold deleteMatching
      split_ifs
      · rw [deleteRoute_ok env r.id s hapi]
        exact ih _
      · exact ih _
  unfold clearStaticRoute
  rw [getRoutes_ok env s hapi]
  exact key _ _

theorem clearStaticRouteAll_removes (env : Env) (addrs : List String) (s : State)
    (hapi : ∀ n, env.apiFails n = false) (r : Route)
    (h : r ∈ (clearStaticRouteAll env addrs s).2.routes) :
    r.dstAddress ∉ addrs.map (fun a => a ++ "/32") := by
  induction addrs generalizing s with
  | nil => simp
  | cons a rest ih =>
    unfold clearStaticRouteAll at h
    have hok := clearStaticRoute_ok env (a ++ "/32") s hapi
    split at h
    · rename_i e s1 heq
      rw [heq] at hok
      exact absurd hok (by simp)
    · rename_i u s1 heq
      have hr := congrArg (fun p => p.2) heq
      simp only at hr
      have h1 : r ∈ (clearStaticRoute env (a ++ "/32") s).2.routes := by
        rw [hr]
        exact clearStaticRouteAll_sub _ _ _ _ h
      have h2 := clearStaticRoute_removes env (a ++ "/32") s hapi r h1
      have h3 := ih _ h
      simp only [List.map_cons, List.mem_cons, not_or]
      exact ⟨h2, h3⟩

theorem clearStaticRouteDNS_sub (env : Env) (host dnsServer : String) (s : State) (r : Route)
    (h : r ∈ (clearStaticRouteDNS env host dnsServer s).2.routes) : r ∈ s.routes := by
  unfold clearStaticRouteDNS at h
  split at h
  · rename_i e s1 heq
    have hr := congrArg (fun p => p.2.routes) heq
    simp only [getARecords_routes] at hr
    rw [hr]
    exact h
  · rename_i addrs s1 heq
    have hr := congrArg (fun p => p.2.routes) heq
    simp only [getARecords_routes] at hr
    rw [hr]
    exact clearStaticRouteAll_sub _ _ _ _ h

/-- With a reachable router and a DNS server that answers a query the same way each time,
`clearStaticRouteDNS` leaves no route to an address of the host. -/
theorem clearStaticRouteDNS_removes (env : Env) (host dnsServer : String) (s : State)
    (hapi : ∀ n, env.apiFails n = false) (hdns : stableDNS env) (r : Route)
    (h : r ∈ (clearStaticRouteDNS env host dnsServer s).2.routes) :
    r.dstAddress ∉ answerDsts env dnsServer host := by
  have hres := getARecords_eq env host dnsServer s hdns
  unfold clearStaticRouteDNS at h
  split at h
  · rename_i e s1 heq
    rw [heq] at hres
    simp only at hres
    unfold answerDsts
    split at hres
    · simp
    · exact absurd hres (by simp)
  · rename_i addrs s1 heq
    rw [heq] at hres
    simp only at hres
    have hd : answerDsts env dnsServer host = addrs.map (fun a => a ++ "/32") := by
      unfold answerDsts
      split at hres
      · exact absurd hres (by simp)
      · injection hres with hres
        rw [hres]
    rw [hd]
    exact clearStaticRouteAll_removes env addrs s1 hapi r h

theorem runDeferredDNS_marked (env : Env) (dnsServer : String) (hosts D : List String)
    (s : State) (hapi : ∀ n, env.apiFails n = false) (hdns : stableDNS env)
    (h : markedWithin s (pendingDsts env dnsServer hosts ++ D)) :
    markedWithin (runDeferredDNS env dnsServer hosts s) D := by
  induction hosts generalizing s with
  | nil => exact h
  | cons host rest ih =>
    unfold runDeferredDNS
    apply ih
    intro r hr hc
    have h1 := h r (clearStaticRouteDNS_sub _ _ _ _ _ hr) hc
    have h2 := clearStaticRouteDNS_removes env host dnsServer s hapi hdns r hr
    simp only [pendingDsts, List.append_assoc, List.mem_append] at h1 ⊢
    rcases h1 with h1 | h1
    · exact absurd h1 h2
    · exact h1

theorem speedTargets_marked (env : Env) (dnsServer gw : String) (targets deferred D : List String)
    (s : State) (hdns : stableDNS env)
    (h : markedWithin s (pendingDsts env dnsServer deferred ++ D)) :
    markedWithin (speedTargets env dnsServer gw targets deferred s).2
      (pendingDsts env dnsServer (speedTargets env dnsServer gw targets deferred s).1.2 ++ D) := by
  induction targets generalizing deferred s with
  | nil => exact h
  | cons t rest ih =>
    have h1 : markedWithin (staticRouteDNS env (hostPart t) dnsServer gw s).2
        (pendingDsts env dnsServer (hostPart t :: deferred) ++ D) := by
      have := staticRouteDNS_marked env (hostPart t) dnsServer gw _ s hdns h
      simpa only [pendingDsts, List.append_assoc] using this
    unfold speedTargets
    split
    · rename_i e s1 heq
      rw [heq] at h1
      exact h1
    · rename_i u s1 heq
      rw [heq] at h1
      simp only at h1 ⊢
      split_ifs
      · exact ih _ _ h1
      · split
        · exact h1
        · exact h1

/-- With a reachable router and stable DNS answers, `checkSpeed` removes the routes it has
put. -/
theorem checkSpeed_marked (env : Env) (dnsServer gw : String) (D : List String) (s : State)
    (hapi : ∀ n, env.apiFails n = false) (hdns : stableDNS env) (h : markedWithin s D) :
    markedWithin (checkSpeed env dnsServer gw s).2 D := by
  have h1 : markedWithin (staticRouteDNS env "www.speedtest.net" dnsServer gw s).2
      (pendingDsts env dnsServer ["www.speedtest.net"] ++ D) := by
    have := staticRouteDNS_marked env "www.speedtest.net" dnsServer gw _ s hdns h
    simpa only [pendingDsts, List.append_nil] using this
  unfold checkSpeed
  split
  · rename_i e s1 heq
    rw [heq] at h1
    exact runDeferredDNS_marked env dnsServer _ D s1 hapi hdns h1
  · rename_i u s1 heq
    rw [heq] at h1
    simp only at h1 ⊢
    split_ifs
    · exact runDeferredDNS_marked env dnsServer _ D _ hapi hdns h1
    · split
      · exact runDeferredDNS_marked env dnsServer _ D _ hapi hdns h1
      · rename_i targets htargets
        apply runDeferredDNS_marked env dnsServer _ D _ hapi hdns
        exact speedTargets_marked env dnsServer gw targets _ D _ hdns h1

/-- With a reachable router, and stable DNS answers when the bandwidth probe runs, every
marked route left by the statements of `evaluateInterface` is registered with a deferred
removal. -/
theorem evaluateInterfaceBody_marked (env : Env) (ifname : String) (speedTest : Bool)
    (s : State) (D : List String) (hapi : ∀ n, env.apiFails n = false)
    (hdns : speedTest = true → stableDNS env) (h : markedWithin s D) :
    markedWithin (evaluateInterfaceBody env ifname speedTest s).2
      ((evaluateInterfaceBody env ifname speedTest s).1.2 ++ D) := by
  unfold evaluateInterfaceBody
  simp only
  split
  · rename_i e s1 heq
    have hs1 : s1 = (dhcpInfo env ifname s).2 := by rw [heq]
    exact markedWithin_of_routes_eq s s1 _ (by rw [hs1, dhcpInfo_routes]) (by simpa using h)
  · rename_i dhcp s1 heq
    have hs1 : s1 = (dhcpInfo env ifname s).2 := by rw [heq]
    have h1 : markedWithin s1 D :=
      markedWithin_of_routes_eq s s1 _ (by rw [hs1, dhcpInfo_routes]) h
    split
    · simpa using h1
    · rename_i gw hgw
      have hping : ∀ s2 : State, s2 = (ping env gw s1).2 → markedWithin s2 D := by
        intro s2 e
        exact markedWithin_of_routes_eq s1 s2 _ (by rw [e, ping_routes]) h1
      split
      · rename_i s2 heq2
        simpa using hping s2 (by rw [heq2])
      · rename_i s2 heq2
        simpa using hping s2 (by rw [heq2])
      · rename_i l s2 heq2
        have h2 := hping s2 (by rw [heq2])
        have hinst := installRoutes_marked env gw externalCheckHosts [] D s2 (by simpa using h2)
        split
        · rename_i deferred s3 heq3
          rw [heq3] at hinst
          exact hinst
        · rename_i deferred s3 heq3
          rw [heq3] at hinst
          exact hinst
        · rename_i deferred s3 heq3
          rw [heq3] at hinst
          simp only at hinst
          have h4 : markedWithin (record (.sleep 100) s3) (deferred ++ D) := hinst
          split
          · rename_i e s5 heq5
            have hr5 := congrArg (fun p => p.2.routes) heq5
            simp only [pingExternal_routes] at hr5
            exact markedWithin_of_routes_eq _ s5 _ hr5.symm h4
          · rename_i ifstats s5 heq5
            have hr5 := congrArg (fun p => p.2.routes) heq5
            simp only [pingExternal_routes] at hr5
            have h5 : markedWithin s5 (deferred ++ D) :=
              markedWithin_of_routes_eq _ s5 _ hr5.symm h4
            have h6 := dnsLoop_marked env externalCheckHosts ifstats s5 _ hapi h5
            split_ifs with hsp
            · have hst : stableDNS env := by
                apply hdns
                simp only [Bool.and_eq_true] at hsp
                exact hsp.1
              have h7 := checkSpeed_marked env
                (dnsLoop env externalCheckHosts ifstats s5).1.2
                (dnsLoop env externalCheckHosts ifstats s5).1.1.gateway _ _ hapi hst h6
              split
              · rename_i e6 s6 heq6
                rw [heq6] at h7
                exact h7
              · rename_i v s6 heq6
                rw [heq6] at h7
                exact h7
            · exact h6

/-- C9, as amended: when no request to the router fails during the call and, if the bandwidth
probe is asked for, the DNS server answers each question the same way every time, a call of
`evaluateInterface` on a route table without marked routes leaves a route table without
marked routes, whether it returns a report or an error. -/
theorem evaluateInterface_leaves_no_marked_route (env : Env) (ifname : String)
    (speedTest : Bool) (s : State)
    (hapi : ∀ n, env.apiFails n = false)
    (hdns : speedTest = true → stableDNS env)
    (hclean : ∀ r ∈ s.routes, r.comment ≠ marker) :
    ∀ r ∈ (evaluateInterface env ifname speedTest s).2.routes, r.comment ≠ marker := by
  have h0 : markedWithin s [] := fun r hr hc => absurd hc (hclean r hr)
  have h1 := evaluateInterfaceBody_marked env ifname speedTest s [] hapi hdns h0
  have h2 := runDeferred_marked env _ [] _ hapi h1
  intro r hr hc
  have := h2 r hr hc
  simp at this

theorem evaluateInterface_leaves_no_marked_route_witness :
    (∀ n, quietEnv.apiFails n = false)
      ∧ (true = true → stableDNS quietEnv)
      ∧ (∀ r ∈ sampleRouter.routes, r.comment ≠ marker)
      ∧ ∀ r ∈ (evaluateInterface quietEnv "ether1" true sampleRouter).2.routes,
          r.comment ≠ marker :=
  ⟨fun _ => rfl, fun _ _ _ _ _ => rfl, by decide,
    evaluateInterface_leaves_no_marked_route quietEnv "ether1" true sampleRouter
      (fun _ => rfl) (fun _ _ _ _ _ => rfl) (by decide)⟩

/-- C9 as stated fails: the router stops answering after the first transient route is put;
`evaluateInterface` returns an error, its deferred removal fails too, and the marked route to
1.0.0.1/32 stays in a table that held no marked route before. -/
theorem evaluateInterface_leaves_route_when_router_unreachable :
    (∀ r ∈ sampleRouter.routes, r.comment ≠ marker)
      ∧ (evaluateInterface cutEnv "ether1" false sampleRouter).1
          = (none, some "could not clear static route to dns server")
      ∧ (evaluateInterface cutEnv "ether1" false sampleRouter).2.routes
          = [⟨0, "1.0.0.1/32", "10.0.0.1", "1", "netchecker"⟩] := by
  refine ⟨by decide, rfl, by decide⟩

/-- With the bandwidth probe, a marked route can stay although every request to the router
succeeds: `checkSpeed` defers `clearStaticRouteDNS`, which resolves the host name again, and a
DNS server that answers with another address each time makes it clear another destination. -/
theorem checkSpeed_leaves_route_when_dns_rotates :
    (∀ n, rotatingEnv.apiFails n = false)
      ∧ (∀ r ∈ sampleRouter.routes, r.comment ≠ marker)
      ∧ ∃ r ∈ (evaluateInterface rotatingEnv "ether1" true sampleRouter).2.routes,
          r.comment = marker := by
  refine ⟨fun _ => rfl, by decide, ?_⟩
  decide

end Netchecker
